import Mathlib

/-!
Verification of the tunneling data-plane core (gateway + agent) against its
design document.  Go strings are modelled as `List Char` (`GoStr`), Go maps as
association lists built exclusively through `mapSet`/`mapDel` (so keys stay
nodup), byte slices as `List Nat`, and fallible Go functions as `Except`/
`Option` values.  External effects (socket writes, the local HTTP call, file
I/O, JSON (un)marshalling) are modelled as explicit parameters or as the
decoded document they produce, exactly mirroring the control flow of
`internal/protocol/protocol.go`, `internal/agent/config.go` and
`internal/agent/service.go`.
-/

abbrev GoStr := List Char

def gs (s : String) : GoStr := s.data

/-- ASCII lower-casing of one character, as `strings.ToLower` acts on the
ASCII range (the only range exercised by hostnames, targets and header keys). -/
def asciiLower (c : Char) : Char :=
  if 65 ≤ c.toNat ∧ c.toNat ≤ 90 then Char.ofNat (c.toNat + 32) else c

/-- ASCII upper-casing of one character (used by MIME header canonicalization). -/
def asciiUpper (c : Char) : Char :=
  if 97 ≤ c.toNat ∧ c.toNat ≤ 122 then Char.ofNat (c.toNat - 32) else c

/-- `strings.ToLower` on the ASCII range. -/
def goToLower (s : GoStr) : GoStr := s.map asciiLower

/-- The whitespace characters trimmed by `strings.TrimSpace` (ASCII range):
space, tab, newline, vertical tab, form feed, carriage return. -/
def isGoSpace (c : Char) : Bool :=
  c.toNat = 32 ∨ c.toNat = 9 ∨ c.toNat = 10 ∨ c.toNat = 11 ∨ c.toNat = 12 ∨ c.toNat = 13

def trimLeft (s : GoStr) : GoStr := s.dropWhile isGoSpace

/-- Drop trailing whitespace. -/
def trimRight : GoStr → GoStr
  | [] => []
  | c :: rest =>
    match trimRight rest with
    | [] => if isGoSpace c then [] else [c]
    | r => c :: r

/-- `strings.TrimSpace`. -/
def trimSpace (s : GoStr) : GoStr := trimRight (trimLeft s)

/-- `strings.Contains(s, string(c))` for a single character. -/
def strContains : GoStr → Char → Bool
  | [], _ => false
  | x :: xs, c => x = c || strContains xs c

/-- `strings.Count(s, string(c))` for a single character. -/
def countChar : GoStr → Char → Nat
  | [], _ => 0
  | x :: xs, c => (if x = c then 1 else 0) + countChar xs c

/-- Does `s` start with `pat`? (`strings.HasPrefix`.) -/
def strStartsWith : GoStr → GoStr → Bool
  | _, [] => true
  | [], _ :: _ => false
  | c :: s, p :: ps => c = p && strStartsWith s ps

/-- Does `pat` occur as a contiguous substring of `s`? (`strings.Contains`.) -/
def substrIn (pat : GoStr) : GoStr → Bool
  | [] => strStartsWith [] pat
  | c :: s => strStartsWith (c :: s) pat || substrIn pat s

/-- Does `s` end with `suf`? (`strings.HasSuffix`.) -/
def strEndsWith (s suf : GoStr) : Bool := strStartsWith s.reverse suf.reverse

/-- `strings.TrimSuffix`: remove one copy of `suf` from the end, if present. -/
def trimSuffixStr (s suf : GoStr) : GoStr :=
  if strEndsWith s suf then s.take (s.length - suf.length) else s

/-- Index of the first occurrence of `c` in `s`. -/
def idxOf? (c : Char) : GoStr → Option Nat
  | [] => none
  | x :: xs => if x = c then some 0 else (idxOf? c xs).map (· + 1)

/-- Index of the last occurrence of `c` in `s` (`last` in `net.SplitHostPort`). -/
def lastIdxOf? (c : Char) : GoStr → Option Nat
  | [] => none
  | x :: xs =>
    match lastIdxOf? c xs with
    | some i => some (i + 1)
    | none => if x = c then some 0 else none

/-- `net.SplitHostPort`: `none` models the error return.  Faithful to the Go
standard library: the port starts after the last colon; a leading `[` demands
the form `[host]:port`; stray `[`/`]` or a colon inside an unbracketed host are
errors. -/
def splitHostPort (hp : GoStr) : Option (GoStr × GoStr) :=
  match lastIdxOf? ':' hp with
  | none => none
  | some i =>
    if hp.head? = some '[' then
      match idxOf? ']' hp with
      | none => none
      | some e =>
        if e + 1 = hp.length then none
        else if e + 1 = i then
          if strContains (hp.drop 1) '[' then none
          else if strContains (hp.drop (e + 1)) ']' then none
          else some ((hp.drop 1).take (e - 1), hp.drop (i + 1))
        else none
    else
      if strContains (hp.take i) ':' then none
      else if strContains hp '[' then none
      else if strContains hp ']' then none
      else some (hp.take i, hp.drop (i + 1))

/-- Gateway-side host normalization (`normalizeHost` in protocol.go): trim and
lower-case; if a colon is present try `net.SplitHostPort`, falling back to a
plain split when the string has exactly one colon; otherwise return as-is. -/
def normalizeHost (host : GoStr) : GoStr :=
  let h := trimSpace (goToLower host)
  if h = [] then []
  else if strContains h ':' then
    match splitHostPort h with
    | some hp => trimSpace (goToLower hp.1)
    | none =>
      if countChar h ':' = 1 then
        trimSpace (goToLower (h.takeWhile (fun c => ¬ c = ':')))
      else h
  else h

/-- Base64 (standard alphabet) value of a character. -/
def b64Index (c : Char) : Option Nat :=
  if 65 ≤ c.toNat ∧ c.toNat ≤ 90 then some (c.toNat - 65)
  else if 97 ≤ c.toNat ∧ c.toNat ≤ 122 then some (c.toNat - 97 + 26)
  else if 48 ≤ c.toNat ∧ c.toNat ≤ 57 then some (c.toNat - 48 + 52)
  else if c = '+' then some 62
  else if c = '/' then some 63
  else none

/-- Base64 character for a 6-bit value. -/
def b64Char (n : Nat) : Char :=
  if n < 26 then Char.ofNat (65 + n)
  else if n < 52 then Char.ofNat (97 + (n - 26))
  else if n < 62 then Char.ofNat (48 + (n - 52))
  else if n = 62 then '+'
  else '/'

/-- `base64.StdEncoding.EncodeToString` over bytes-as-`Nat`. -/
def base64Encode : List Nat → GoStr
  | [] => []
  | [x] => [b64Char (x / 4 % 64), b64Char (x % 4 * 16), '=', '=']
  | [x, y] => [b64Char (x / 4 % 64), b64Char (x % 4 * 16 + y / 16), b64Char (y % 16 * 4), '=']
  | x :: y :: z :: rest =>
    b64Char (x / 4 % 64) :: b64Char (x % 4 * 16 + y / 16) ::
    b64Char (y % 16 * 4 + z / 64) :: b64Char (z % 64) :: base64Encode rest

/-- Decode the 4-character quantums of a base64 string; `=` padding is only
legal in the final quantum.  `none` models `CorruptInputError`. -/
def b64Chunks : GoStr → Option (List Nat)
  | [] => some []
  | a :: b :: c :: d :: rest =>
    match b64Index a, b64Index b with
    | some va, some vb =>
      if c = '=' then
        if d = '=' ∧ rest = [] then some [va * 4 + vb / 16] else none
      else
        match b64Index c with
        | some vc =>
          if d = '=' then
            if rest = [] then some [va * 4 + vb / 16, vb % 16 * 16 + vc / 4] else none
          else
            match b64Index d with
            | some vd =>
              (b64Chunks rest).map
                (fun tail => (va * 4 + vb / 16) :: (vb % 16 * 16 + vc / 4) :: (vc % 4 * 64 + vd) :: tail)
            | none => none
        | none => none
    | _, _ => none
  | _ => none

/-- `base64.StdEncoding.DecodeString` (which skips `\r` and `\n`). -/
def base64Decode (s : GoStr) : Option (List Nat) :=
  b64Chunks (s.filter (fun c => ¬ c = '\r' ∧ ¬ c = '\n'))

/- ### Association-list model of Go maps -/

/-- Lookup (`m[k]` with the ok flag). -/
def mapGet {α : Type} : List (GoStr × α) → GoStr → Option α
  | [], _ => none
  | (k', v) :: rest, k => if k' = k then some v else mapGet rest k

/-- Assignment `m[k] = v`. -/
def mapSet {α : Type} : List (GoStr × α) → GoStr → α → List (GoStr × α)
  | [], k, v => [(k, v)]
  | (k', v') :: rest, k, v =>
    if k' = k then (k, v) :: rest else (k', v') :: mapSet rest k v

/-- `delete(m, k)`. -/
def mapDel {α : Type} : List (GoStr × α) → GoStr → List (GoStr × α)
  | [], _ => []
  | (k', v') :: rest, k =>
    if k' = k then mapDel rest k else (k', v') :: mapDel rest k

def mapKeys {α : Type} (m : List (GoStr × α)) : List GoStr := m.map Prod.fst

/-- The invariant every Go map enjoys: one entry per key. -/
def NodupKeys {α : Type} (m : List (GoStr × α)) : Prop := (mapKeys m).Nodup

instance nodupKeysDecidable {α : Type} (m : List (GoStr × α)) : Decidable (NodupKeys m) :=
  inferInstanceAs (Decidable (mapKeys m).Nodup)

instance exceptDecidableEq {ε α : Type} [DecidableEq ε] [DecidableEq α] :
    DecidableEq (Except ε α) := fun x y =>
  match x, y with
  | .ok a, .ok b =>
    if h : a = b then isTrue (by rw [h])
    else isFalse (fun hc => h (Except.ok.inj hc))
  | .ok _, .error _ => isFalse (fun hc => Except.noConfusion hc)
  | .error _, .ok _ => isFalse (fun hc => Except.noConfusion hc)
  | .error e, .error f =>
    if h : e = f then isTrue (by rw [h])
    else isFalse (fun hc => h (Except.error.inj hc))

/- ### Wire protocol data model (internal/protocol) -/

structure Route where
  hostname : GoStr
  target : GoStr
deriving DecidableEq

abbrev Headers := List (GoStr × List GoStr)

structure Envelope where
  type : GoStr
  requestId : GoStr
  method : GoStr
  path : GoStr
  query : GoStr
  headers : Headers
  body : GoStr
  status : Nat
  hostname : GoStr
  target : GoStr
  routes : List Route
  message : GoStr
deriving DecidableEq

/-- An all-empty envelope, the zero value every construction site starts from
(Go leaves unset fields at their zero values). -/
def Envelope.empty : Envelope :=
  ⟨[], [], [], [], [], [], [], 0, [], [], [], []⟩

/-- `protocol.CloneHeaders`: a value copy, which is the identity in this pure
model (the empty-map special case also returns an empty map). -/
def CloneHeaders (h : Headers) : Headers := h

/- ### Gateway (internal/protocol/protocol.go, package server) -/

/-- 10 MiB body cap (`maxBodySize`). -/
def maxBodySize : Nat := 10 * 1024 * 1024

structure routeBinding where
  token : GoStr
  target : GoStr
deriving DecidableEq

/-- Gateway shared state: the session registry (token → session id) and the
routing table (hostname → binding). -/
structure GatewayState where
  agents : List (GoStr × Nat)
  routes : List (GoStr × routeBinding)
deriving DecidableEq

/-- `swapAgent`: point the registry at the new session, returning the previous
session for that token (which `HandleConnect` then closes). -/
def swapAgent (st : GatewayState) (token : GoStr) (sid : Nat) :
    GatewayState × Option Nat :=
  (⟨mapSet st.agents token sid, st.routes⟩, mapGet st.agents token)

/-- Remove every binding owned by `token` (the loop bodies in `cleanupAgent`
and `applyRoutes`). -/
def purgeToken : List (GoStr × routeBinding) → GoStr → List (GoStr × routeBinding)
  | [], _ => []
  | (h, b) :: rest, token =>
    if b.token = token then purgeToken rest token
    else (h, b) :: purgeToken rest token

/-- `cleanupAgent`: fires when a session's reader returns.  Only if the
registry still points at this very session is it removed and are its bindings
purged; a superseded session leaves the state untouched. -/
def cleanupAgent (st : GatewayState) (token : GoStr) (sid : Nat) : GatewayState :=
  match mapGet st.agents token with
  | some cur =>
    if cur = sid then ⟨mapDel st.agents token, purgeToken st.routes token⟩ else st
  | none => st

/-- The insertion loop body of `applyRoutes`. -/
def applyRouteStep (token : GoStr) (acc : List (GoStr × routeBinding)) (route : Route) :
    List (GoStr × routeBinding) :=
  let host := normalizeHost route.hostname
  let target := trimSpace route.target
  if host = [] ∨ target = [] then acc
  else mapSet acc host ⟨token, target⟩

/-- `applyRoutes`: under one exclusive hold, drop every binding owned by
`token`, then insert each route whose gateway-normalized hostname and trimmed
target are nonempty (malformed entries are skipped). -/
def applyRoutes (token : GoStr) (routes : List Route) (tbl : List (GoStr × routeBinding)) :
    List (GoStr × routeBinding) :=
  routes.foldl (applyRouteStep token) (purgeToken tbl token)

/-- `stripHopHeaders` (both sides share this code shape): for each hop-by-hop
name, delete the canonical key and its lower-case key. -/
def hopHeaders : List GoStr :=
  [gs "Connection", gs "Proxy-Connection", gs "Keep-Alive", gs "Proxy-Authenticate",
   gs "Proxy-Authorization", gs "Te", gs "Trailer", gs "Transfer-Encoding", gs "Upgrade"]

def stripHopHeaders (h : Headers) : Headers :=
  hopHeaders.foldl (fun acc k => mapDel (mapDel acc k) (goToLower k)) h

/-- `extractClientIP`. -/
def extractClientIP (remoteAddr : GoStr) : GoStr :=
  match splitHostPort remoteAddr with
  | some hp => hp.1
  | none => remoteAddr

/-- `appendXForwarded`: append the client IP to X-Forwarded-For, set
X-Forwarded-Host (normalized) and X-Forwarded-Proto per the connection scheme. -/
def appendXForwarded (headers : Headers) (remoteAddr hostHdr : GoStr) (tls : Bool) : Headers :=
  let clientIP := extractClientIP remoteAddr
  let h1 :=
    if clientIP = [] then headers
    else mapSet headers (gs "X-Forwarded-For")
      (((mapGet headers (gs "X-Forwarded-For")).getD []) ++ [clientIP])
  let h2 := mapSet h1 (gs "X-Forwarded-Host") [normalizeHost hostHdr]
  if tls then mapSet h2 (gs "X-Forwarded-Proto") [gs "https"]
  else mapSet h2 (gs "X-Forwarded-Proto") [gs "http"]

/-- A public HTTP request as the handler sees it. -/
structure PublicRequest where
  host : GoStr
  method : GoStr
  path : GoStr
  query : GoStr
  headers : Headers
  body : List Nat
  remoteAddr : GoStr
  tls : Bool

/-- The handler's observable outcome: either an error response the gateway
itself produces (`http.Error` / `http.NotFound`), or the delivered
`proxy_response` envelope handed to `writeResponse`. -/
inductive PublicOutcome where
  | errorResp (status : Nat) (body : GoStr)
  | delivered (resp : Envelope)
deriving DecidableEq

/-- `HandlePublicHTTP`.  Effects are explicit parameters: `readErr` is a
request-body read failure, `writeOk` the success of the envelope write,
`requestId` the value drawn from the atomic counter, and `resp?` the
`proxy_response` (if any) that arrived on the pending slot before the timeout.
The second component is the `proxy_request` envelope written to the session,
when execution reaches the write. -/
def HandlePublicHTTP (st : GatewayState) (r : PublicRequest)
    (readErr writeOk : Bool) (requestId : GoStr) (resp? : Option Envelope) :
    PublicOutcome × Option Envelope :=
  let host := normalizeHost r.host
  if host = [] then (.errorResp 400 (gs "invalid host"), none)
  else
    match mapGet st.routes host with
    | none => (.errorResp 404 (gs "404 page not found"), none)
    | some binding =>
      match mapGet st.agents binding.token with
      | none => (.errorResp 503 (gs "tunnel offline"), none)
      | some _ =>
        if readErr then (.errorResp 400 (gs "read request failed"), none)
        else
          let body := r.body.take maxBodySize
          let headers := appendXForwarded (stripHopHeaders (CloneHeaders r.headers))
            r.remoteAddr r.host r.tls
          let env : Envelope :=
            { Envelope.empty with
              type := gs "proxy_request"
              requestId := requestId
              method := r.method
              path := r.path
              query := r.query
              headers := headers
              body := base64Encode body
              hostname := host
              target := binding.target }
          if writeOk = false then (.errorResp 502 (gs "send to tunnel failed"), some env)
          else
            match resp? with
            | some resp => (.delivered resp, some env)
            | none => (.errorResp 504 (gs "tunnel timeout"), some env)

/-- Bytes of an ASCII diagnostic string. -/
def strBytes (s : GoStr) : List Nat := s.map Char.toNat

/-- `validHeaderFieldByte` of net/textproto: the HTTP token alphabet
(letters, digits, and `! # $ % & ' * + - . ^ _ \x60 | ~` by code point). -/
def isTokenChar (c : Char) : Bool :=
  (65 ≤ c.toNat ∧ c.toNat ≤ 90) ∨ (97 ≤ c.toNat ∧ c.toNat ≤ 122) ∨
  (48 ≤ c.toNat ∧ c.toNat ≤ 57) ∨
  c.toNat = 33 ∨ c.toNat = 35 ∨ c.toNat = 36 ∨ c.toNat = 37 ∨ c.toNat = 38 ∨
  c.toNat = 39 ∨ c.toNat = 42 ∨ c.toNat = 43 ∨ c.toNat = 45 ∨ c.toNat = 46 ∨
  c.toNat = 94 ∨ c.toNat = 95 ∨ c.toNat = 96 ∨ c.toNat = 124 ∨ c.toNat = 126

def isLowerAlpha (c : Char) : Bool := 97 ≤ c.toNat ∧ c.toNat ≤ 122

def isUpperAlpha (c : Char) : Bool := 65 ≤ c.toNat ∧ c.toNat ≤ 90

/-- One character of `textproto.canonicalMIMEHeaderKey`'s case-fixing loop:
upper-case a letter at the start or after a hyphen (`up`), lower-case it
elsewhere. -/
def canonChar (up : Bool) (c : Char) : Char :=
  if up then (if isLowerAlpha c then asciiUpper c else c)
  else (if isUpperAlpha c then asciiLower c else c)

/-- The case-fixing loop of `textproto.canonicalMIMEHeaderKey`. -/
def canonGo : Bool → GoStr → GoStr
  | _, [] => []
  | up, c :: rest => canonChar up c :: canonGo (canonChar up c = '-') rest

/-- `textproto.CanonicalMIMEHeaderKey`: keys containing a byte outside the
token alphabet are returned unchanged. -/
def canonKey (s : GoStr) : GoStr :=
  if s.all isTokenChar then canonGo true s else s

/-- `http.Header.Add` (canonicalizes the key, appends the value). -/
def headerAdd (h : Headers) (k v : GoStr) : Headers :=
  let ck := canonKey k
  mapSet h ck (((mapGet h ck).getD []) ++ [v])

/-- `writeResponse`: pick the status (502 when the envelope's status is zero),
copy the headers, write the header, then decode and stream the body; a decode
failure writes a plaintext diagnostic as the body (the status line is already
on the wire at that point). -/
def writeResponse (resp : Envelope) : Nat × Headers × List Nat :=
  let status := if resp.status = 0 then 502 else resp.status
  let headers := resp.headers.foldl
    (fun acc kv => kv.2.foldl (fun a v => headerAdd a kv.1 v) acc) []
  let body :=
    if resp.body = [] then []
    else
      match base64Decode resp.body with
      | none => strBytes (gs "decode response body failed")
      | some b => b
  (status, headers, body)

/- ### Agent configuration store (internal/agent/config.go) -/

/-- `NormalizeHostname`: lower-case, trim space, strip one trailing dot; then
require nonempty, no space, no colon, and at least one dot. -/
def NormalizeHostname (hostname : GoStr) : Except GoStr GoStr :=
  let host := trimSuffixStr (trimSpace (goToLower hostname)) (gs ".")
  if host = [] then .error (gs "hostname is required")
  else if strContains host ' ' then .error (gs "hostname cannot contain spaces")
  else if strContains host ':' then .error (gs "hostname cannot include port")
  else if strContains host '.' = false then
    .error (gs "hostname must be a domain, e.g. app.example.com")
  else .ok host

/-- `NormalizeTarget`: trim space; require nonempty, no URL scheme, a colon. -/
def NormalizeTarget (target : GoStr) : Except GoStr GoStr :=
  let t := trimSpace target
  if t = [] then .error (gs "target is required")
  else if substrIn (gs "http://") t || substrIn (gs "https://") t then
    .error (gs "target should be host:port, e.g. 127.0.0.1:3000")
  else if strContains t ':' = false then
    .error (gs "target must include port, e.g. 127.0.0.1:3000")
  else .ok t

/-- The in-memory `hostname → target` map of the store.  (The stored
`protocol.Route` value always has `Hostname` equal to its key, so the pair
`(key, target)` carries the whole entry.) -/
abbrev RouteMap := List (GoStr × GoStr)

/-- A ConfigStore state: the in-memory map plus the decoded content of the
persisted file.  File I/O and JSON (un)marshalling are external; `save` and
`load` are modelled at the level of the decoded `{routes: [...]}` document. -/
structure ConfigStore where
  routes : RouteMap
  file : List Route
deriving DecidableEq

/-- Go string comparison `<` (byte-wise lexicographic). -/
def strLt : GoStr → GoStr → Bool
  | [], [] => false
  | [], _ :: _ => true
  | _ :: _, [] => false
  | a :: as, b :: bs => if a.toNat < b.toNat then true else if a = b then strLt as bs else false

def routeMapLt (a b : GoStr × GoStr) : Prop := strLt a.1 b.1 = true

instance : DecidableRel routeMapLt := fun a b =>
  inferInstanceAs (Decidable (strLt a.1 b.1 = true))

/-- `snapshotLocked`: the route values sorted by hostname. -/
def snapshotLocked (routes : RouteMap) : List Route :=
  (List.insertionSort routeMapLt routes).map (fun p => ⟨p.1, p.2⟩)

/-- The body of the route-ingesting loop of `load`. -/
def loadRouteStep (acc : RouteMap) (route : Route) : RouteMap :=
  match NormalizeHostname route.hostname with
  | .error _ => acc
  | .ok host =>
    match NormalizeTarget route.target with
    | .error _ => acc
    | .ok target => mapSet acc host target

/-- The route-ingesting loop of `load`: normalize each entry, silently
dropping invalid ones, and assign into the map. -/
def loadRoutes (rs : List Route) : RouteMap :=
  rs.foldl loadRouteStep []

/-- `load ∘ save` at the document level: snapshot the map to the file document,
then read it back through `load` into a fresh store (as `NewConfigStore` does). -/
def saveThenLoad (s : ConfigStore) : ConfigStore :=
  let doc := snapshotLocked s.routes
  ⟨loadRoutes doc, doc⟩

/-- The `next` map built at the top of `ReplaceAll`; the first invalid route
aborts the whole call with its error. -/
def buildNext (acc : RouteMap) : List Route → Except GoStr RouteMap
  | [] => .ok acc
  | route :: rest =>
    match NormalizeHostname route.hostname with
    | .error e => .error e
    | .ok host =>
      match NormalizeTarget route.target with
      | .error e => .error e
      | .ok target => buildNext (mapSet acc host target) rest

/-- The unchanged-set test of `ReplaceAll`: same size and, for every entry of
`next`, the current map holds the same target. -/
def sameRouteSet (next current : RouteMap) : Bool :=
  next.length = current.length &&
  next.all (fun p => mapGet current p.1 = some p.2)

/-- `ReplaceAll`: build the fully-normalized replacement first (any invalid
route rejects the whole call before any mutation); if the set is unchanged
report `(false, ok)`; otherwise install it and persist.  Result:
(changed, error?, resulting store). -/
def ReplaceAll (s : ConfigStore) (routes : List Route) :
    Bool × Option GoStr × ConfigStore :=
  match buildNext [] routes with
  | .error e => (false, some e, s)
  | .ok next =>
    if sameRouteSet next s.routes then (false, none, s)
    else (true, none, ⟨next, snapshotLocked next⟩)

/- ### Agent proxy executor (internal/agent/service.go) -/

/-- 10 MiB response cap (`maxProxyBodySize`). -/
def maxProxyBodySize : Nat := 10 * 1024 * 1024

/-- One header entry of the envelope being added value-by-value through
`http.Header.Add`. -/
def addHeaderEntry (acc : Headers) (kv : GoStr × List GoStr) : Headers :=
  kv.2.foldl (fun a v => headerAdd a kv.1 v) acc

/-- The headers of the local request built by `forwardToLocal`: every envelope
header value is added through `http.Header.Add` (which canonicalizes keys),
then hop-by-hop headers are stripped. -/
def buildLocalHeaders (envHeaders : Headers) : Headers :=
  stripHopHeaders (envHeaders.foldl addHeaderEntry [])

def plainTextCT : Headers := [(gs "Content-Type", [gs "text/plain; charset=utf-8"])]

/-- The local target's reply, as far as the agent reads it. -/
structure LocalResult where
  status : Nat
  headers : Headers
  body : List Nat

/-- Clone of the local response header map (the copy loop in the source). -/
def cloneRespHeaders (h : Headers) : Headers := h

/-- `forwardToLocal`: require a target; base64-decode the body (400 on
failure); execute the local call (`localOutcome = none` models any local-side
failure — dial, timeout, or request construction — producing a 502 with a
plaintext cause); read the response body through a 10 MiB `LimitReader`
(`respReadErr` models a read failure, 502); then copy headers, strip
hop-by-hop and return the status, headers and (possibly truncated) body. -/
def forwardToLocal (req : Envelope) (localOutcome : Option LocalResult)
    (respReadErr : Bool) : Nat × Headers × List Nat :=
  if req.target = [] then (502, plainTextCT, strBytes (gs "missing target"))
  else
    match base64Decode req.body with
    | none => (400, plainTextCT, strBytes (gs "invalid request body"))
    | some _ =>
      match localOutcome with
      | none => (502, plainTextCT, strBytes (gs "local request failed"))
      | some lr =>
        if respReadErr then (502, plainTextCT, strBytes (gs "read local response failed"))
        else
          (lr.status, stripHopHeaders (cloneRespHeaders lr.headers),
           lr.body.take maxProxyBodySize)

/-- `handleProxyRequest`: run the local call and wrap the triple into a
`proxy_response` envelope with the same request id and a base64 body. -/
def handleProxyRequest (req : Envelope) (localOutcome : Option LocalResult)
    (respReadErr : Bool) : Envelope :=
  let r := forwardToLocal req localOutcome respReadErr
  { Envelope.empty with
    type := gs "proxy_response"
    requestId := req.requestId
    status := r.1
    headers := r.2.1
    body := base64Encode r.2.2 }

/- ### Spec-side comparison definitions -/

/-- Modelled from the spec: the §3/§4.3 claim that `ApplyRoutes` normalizes
hostnames "identically to §3", i.e. with the agent's `NormalizeHostname`
(lowercase, trailing dot stripped, must contain a dot, no spaces, no port) and
the §3 target shape (`NormalizeTarget`), skipping malformed entries. -/
def applyRoutesSpec (token : GoStr) (routes : List Route)
    (tbl : List (GoStr × routeBinding)) : List (GoStr × routeBinding) :=
  routes.foldl
    (fun acc route =>
      match NormalizeHostname route.hostname with
      | .error _ => acc
      | .ok host =>
        match NormalizeTarget route.target with
        | .error _ => acc
        | .ok target => mapSet acc host ⟨token, target⟩)
    (purgeToken tbl token)

/-- Modelled from the spec: the §4.3 lookup normalization as the spec words it
— "lowercase, strip port if present via either host:port or bracketed IPv6;
strip trailing dot". -/
def normalizeHostSpec (host : GoStr) : GoStr :=
  trimSuffixStr (normalizeHost host) (gs ".")

/-- The target of the last route in `rs` whose gateway-normalized hostname is
`h` and whose normalized hostname and trimmed target are both nonempty
(later publications win): the specification device used to characterize
`applyRoutes`. -/
def lastValidTarget (rs : List Route) (h : GoStr) : Option GoStr :=
  match rs with
  | [] => none
  | route :: rest =>
    match lastValidTarget rest h with
    | some tg => some tg
    | none =>
      let host := normalizeHost route.hostname
      let target := trimSpace route.target
      if host = [] ∨ target = [] then none
      else if host = h then some target else none

/-- Is a key one of the hop-by-hop header names, compared case-insensitively? -/
def isHopKey (k : GoStr) : Bool :=
  (hopHeaders.map goToLower).any (fun n => n = goToLower k)

/- ### Character-level lemmas -/

theorem char_toNat_ofNat {n : Nat} (h : n < 55296) : (Char.ofNat n).toNat = n := by
  unfold Char.ofNat
  split
  · rfl
  · exact absurd (Or.inl h) (by assumption)

theorem asciiLower_toNat (c : Char) :
    (asciiLower c).toNat = if 65 ≤ c.toNat ∧ c.toNat ≤ 90 then c.toNat + 32 else c.toNat := by
  unfold asciiLower
  split
  · next h => exact char_toNat_ofNat (by omega)
  · rfl

theorem asciiLower_of_not_upper {c : Char} (h : ¬ (65 ≤ c.toNat ∧ c.toNat ≤ 90)) :
    asciiLower c = c := by
  unfold asciiLower
  exact if_neg h

theorem asciiLower_idem (c : Char) : asciiLower (asciiLower c) = asciiLower c := by
  by_cases h : 65 ≤ c.toNat ∧ c.toNat ≤ 90
  · apply asciiLower_of_not_upper
    rw [asciiLower_toNat, if_pos h]
    omega
  · rw [asciiLower_of_not_upper h, asciiLower_of_not_upper h]

theorem asciiUpper_toNat (c : Char) :
    (asciiUpper c).toNat = if 97 ≤ c.toNat ∧ c.toNat ≤ 122 then c.toNat - 32 else c.toNat := by
  unfold asciiUpper
  split
  · next h => exact char_toNat_ofNat (by omega)
  · rfl

theorem asciiUpper_of_not_lower {c : Char} (h : ¬ (97 ≤ c.toNat ∧ c.toNat ≤ 122)) :
    asciiUpper c = c := by
  unfold asciiUpper
  exact if_neg h

theorem asciiLower_asciiUpper_of_lower {c : Char} (h : 97 ≤ c.toNat ∧ c.toNat ≤ 122) :
    asciiLower (asciiUpper c) = c := by
  have ht : (asciiUpper c).toNat = c.toNat - 32 := by rw [asciiUpper_toNat, if_pos h]
  have : asciiLower (asciiUpper c) = Char.ofNat ((asciiUpper c).toNat + 32) := by
    unfold asciiLower
    rw [if_pos (by omega)]
  rw [this, ht]
  have : c.toNat - 32 + 32 = c.toNat := by omega
  rw [this, Char.ofNat_toNat]

theorem asciiUpper_asciiLower_of_upper {c : Char} (h : 65 ≤ c.toNat ∧ c.toNat ≤ 90) :
    asciiUpper (asciiLower c) = c := by
  have ht : (asciiLower c).toNat = c.toNat + 32 := by rw [asciiLower_toNat, if_pos h]
  have : asciiUpper (asciiLower c) = Char.ofNat ((asciiLower c).toNat - 32) := by
    unfold asciiUpper
    rw [if_pos (by omega)]
  rw [this, ht]
  have : c.toNat + 32 - 32 = c.toNat := by omega
  rw [this, Char.ofNat_toNat]

theorem isGoSpace_asciiLower (c : Char) : isGoSpace (asciiLower c) = isGoSpace c := by
  by_cases h : 65 ≤ c.toNat ∧ c.toNat ≤ 90
  · have ht : (asciiLower c).toNat = c.toNat + 32 := by rw [asciiLower_toNat, if_pos h]
    unfold isGoSpace
    rw [ht, decide_eq_decide]
    omega
  · rw [asciiLower_of_not_upper h]

/- ### Trimming and lower-casing lemmas -/

theorem trimRight_cons_of_nil {a : Char} {t : GoStr} (hr : trimRight t = []) :
    trimRight (a :: t) = if isGoSpace a then [] else [a] := by
  unfold trimRight
  rw [hr]

theorem trimRight_cons_of_cons {a b : Char} {t r : GoStr} (hr : trimRight t = b :: r) :
    trimRight (a :: t) = a :: b :: r := by
  unfold trimRight
  rw [hr]

theorem map_eq_self_of_mem {α : Type} (f : α → α) :
    ∀ l : List α, (∀ c ∈ l, f c = c) → l.map f = l
  | [], _ => rfl
  | a :: t, h => by
    simp only [List.map_cons, List.cons.injEq]
    exact ⟨h a (List.mem_cons_self a t), map_eq_self_of_mem f t
      (fun c hc => h c (List.mem_cons_of_mem a hc))⟩

theorem mem_trimLeft {c : Char} {s : GoStr} (h : c ∈ trimLeft s) : c ∈ s := by
  induction s with
  | nil => exact h
  | cons a t ih =>
    by_cases ha : isGoSpace a
    · simp only [trimLeft, List.dropWhile_cons, ha, if_true] at h
      exact List.mem_cons_of_mem a (ih h)
    · simp [trimLeft, List.dropWhile_cons, ha] at h
      simpa using h

theorem mem_trimRight {c : Char} {s : GoStr} (h : c ∈ trimRight s) : c ∈ s := by
  induction s with
  | nil => exact h
  | cons a t ih =>
    rcases hr : trimRight t with _ | ⟨b, r⟩
    · rw [trimRight_cons_of_nil hr] at h
      by_cases ha : isGoSpace a
      · simp [ha] at h
      · simp [ha] at h
        simp [h]
    · rw [trimRight_cons_of_cons hr] at h
      rcases List.mem_cons.mp h with h' | h'
      · simp [h']
      · exact List.mem_cons_of_mem a (ih (hr ▸ h'))

theorem mem_trimSpace {c : Char} {s : GoStr} (h : c ∈ trimSpace s) : c ∈ s :=
  mem_trimLeft (mem_trimRight h)

theorem trimLeft_idem (s : GoStr) : trimLeft (trimLeft s) = trimLeft s := by
  induction s with
  | nil => rfl
  | cons a t ih =>
    by_cases ha : isGoSpace a
    · simp only [trimLeft, List.dropWhile_cons, ha, if_true]
      exact ih
    · simp [trimLeft, List.dropWhile_cons, ha]

theorem trimRight_idem (s : GoStr) : trimRight (trimRight s) = trimRight s := by
  induction s with
  | nil => rfl
  | cons a t ih =>
    have h0 : trimRight ([] : GoStr) = [] := rfl
    rcases hr : trimRight t with _ | ⟨b, r⟩
    · rw [trimRight_cons_of_nil hr]
      by_cases ha : isGoSpace a
      · simp [ha]
        rfl
      · simp [ha]
        rw [trimRight_cons_of_nil h0]
        simp [ha]
    · rw [trimRight_cons_of_cons hr]
      rw [hr] at ih
      rw [trimRight_cons_of_cons ih]

theorem trimLeft_trimRight {s : GoStr} (h : trimLeft s = s) :
    trimLeft (trimRight s) = trimRight s := by
  cases s with
  | nil => rfl
  | cons a t =>
    have ha : isGoSpace a = false := by
      rcases Bool.eq_false_or_eq_true (isGoSpace a) with h' | h'
      · exfalso
        simp only [trimLeft, List.dropWhile_cons, h', if_true] at h
        have hlen := congrArg List.length h
        have hle := (List.dropWhile_suffix (l := t) isGoSpace).length_le
        simp only [trimLeft] at hlen
        simp at hlen
        omega
      · exact h'
    rcases hr : trimRight t with _ | ⟨b, r⟩
    · rw [trimRight_cons_of_nil hr]
      simp [trimLeft, ha]
    · rw [trimRight_cons_of_cons hr]
      simp [trimLeft, List.dropWhile_cons, ha]

theorem trimSpace_idem (s : GoStr) : trimSpace (trimSpace s) = trimSpace s := by
  unfold trimSpace
  rw [trimLeft_trimRight (trimLeft_idem s), trimRight_idem]

theorem trimLeft_eq_self {s : GoStr} (h : ∀ c ∈ s, isGoSpace c = false) :
    trimLeft s = s := by
  cases s with
  | nil => rfl
  | cons a t => simp [trimLeft, List.dropWhile_cons, h a (List.mem_cons_self a t)]

theorem trimRight_eq_self {s : GoStr} (h : ∀ c ∈ s, isGoSpace c = false) :
    trimRight s = s := by
  induction s with
  | nil => rfl
  | cons a t ih =>
    have ht : trimRight t = t := ih (fun c hc => h c (List.mem_cons_of_mem a hc))
    rcases hr : trimRight t with _ | ⟨b, r⟩
    · rw [trimRight_cons_of_nil hr]
      rw [hr] at ht
      simp [h a (List.mem_cons_self a t), ← ht]
    · rw [trimRight_cons_of_cons hr]
      rw [hr] at ht
      rw [ht]

theorem trimSpace_eq_self {s : GoStr} (h : ∀ c ∈ s, isGoSpace c = false) :
    trimSpace s = s := by
  unfold trimSpace
  rw [trimLeft_eq_self h, trimRight_eq_self h]

theorem goToLower_fix_of_mem_lower {c : Char} {s : GoStr} (h : c ∈ goToLower s) :
    asciiLower c = c := by
  rcases List.mem_map.mp h with ⟨d, _, hd⟩
  rw [← hd, asciiLower_idem]

theorem goToLower_trimSpace_goToLower (s : GoStr) :
    goToLower (trimSpace (goToLower s)) = trimSpace (goToLower s) :=
  map_eq_self_of_mem _ _ (fun c hc => goToLower_fix_of_mem_lower (mem_trimSpace hc))

theorem trimSpace_goToLower_fixpoint (s : GoStr) :
    trimSpace (goToLower (trimSpace (goToLower s))) = trimSpace (goToLower s) := by
  rw [goToLower_trimSpace_goToLower, trimSpace_idem]

/- ### Character search lemmas -/

theorem strContains_iff (s : GoStr) (c : Char) : strContains s c = true ↔ c ∈ s := by
  induction s with
  | nil => simp [strContains]
  | cons a t ih =>
    simp only [strContains, Bool.or_eq_true, decide_eq_true_eq, List.mem_cons, ih]
    constructor
    · rintro (h | h)
      · exact Or.inl h.symm
      · exact Or.inr h
    · rintro (h | h)
      · exact Or.inl h.symm
      · exact Or.inr h

theorem strContains_eq_false_iff (s : GoStr) (c : Char) :
    strContains s c = false ↔ c ∉ s := by
  rw [← strContains_iff]
  cases strContains s c <;> simp

theorem lastIdxOf?_eq_none {c : Char} {s : GoStr} (h : c ∉ s) :
    lastIdxOf? c s = none := by
  induction s with
  | nil => rfl
  | cons a t ih =>
    have ha : ¬ a = c := fun hc => h (by simp [hc])
    have ht := ih (fun hc => h (List.mem_cons_of_mem a hc))
    simp [lastIdxOf?, ht, ha]

theorem lastIdxOf?_append {c : Char} (xs : GoStr) {ys : GoStr} (h : c ∉ ys) :
    lastIdxOf? c (xs ++ c :: ys) = some xs.length := by
  induction xs with
  | nil =>
    simp [lastIdxOf?, lastIdxOf?_eq_none h]
  | cons a t ih =>
    simp [List.cons_append, lastIdxOf?, List.append_eq, ih]

theorem idxOf?_append {c : Char} {xs : GoStr} (ys : GoStr) (h : c ∉ xs) :
    idxOf? c (xs ++ c :: ys) = some xs.length := by
  induction xs with
  | nil => simp [idxOf?]
  | cons a t ih =>
    have ha : ¬ a = c := fun hc => h (by simp [hc])
    have ht := ih (fun hc => h (List.mem_cons_of_mem a hc))
    simp [idxOf?, ha, ht]

/- ### Association-map lemmas -/

theorem mapKeys_cons {α : Type} (q : GoStr × α) (rest : List (GoStr × α)) :
    mapKeys (q :: rest) = q.1 :: mapKeys rest := rfl

theorem mapGet_mapSet_self {α : Type} (m : List (GoStr × α)) (k : GoStr) (v : α) :
    mapGet (mapSet m k v) k = some v := by
  induction m with
  | nil => simp [mapSet, mapGet]
  | cons p rest ih =>
    by_cases hk : p.1 = k
    · simp [mapSet, hk, mapGet]
    · simp [mapSet, hk, mapGet, ih]

theorem mapGet_mapSet_ne {α : Type} (m : List (GoStr × α)) {k k' : GoStr} (v : α)
    (h : ¬ k = k') : mapGet (mapSet m k v) k' = mapGet m k' := by
  have hkk : ¬ k' = k := fun hc => h hc.symm
  induction m with
  | nil => simp [mapSet, mapGet, h]
  | cons p rest ih =>
    rcases p with ⟨pk, pv⟩
    by_cases hk : pk = k
    · subst hk
      simp [mapSet, mapGet, h]
    · simp only [mapSet, if_neg hk, mapGet]
      by_cases hk' : pk = k' <;> simp [hk', ih]

theorem mem_mapSet {α : Type} {m : List (GoStr × α)} {k : GoStr} {v : α} {p : GoStr × α}
    (h : p ∈ mapSet m k v) : p ∈ m ∨ p = (k, v) := by
  induction m with
  | nil => simpa [mapSet] using h
  | cons q rest ih =>
    by_cases hk : q.1 = k
    · simp only [mapSet, hk, if_pos rfl] at h
      rcases List.mem_cons.mp h with h' | h'
      · exact Or.inr h'
      · exact Or.inl (List.mem_cons_of_mem q h')
    · simp only [mapSet, if_neg hk] at h
      rcases List.mem_cons.mp h with h' | h'
      · exact Or.inl (h' ▸ List.mem_cons_self q rest)
      · rcases ih h' with h'' | h''
        · exact Or.inl (List.mem_cons_of_mem q h'')
        · exact Or.inr h''

theorem mem_mapDel {α : Type} {m : List (GoStr × α)} {k : GoStr} {p : GoStr × α}
    (h : p ∈ mapDel m k) : p ∈ m ∧ ¬ p.1 = k := by
  induction m with
  | nil => simpa [mapDel] using h
  | cons q rest ih =>
    by_cases hk : q.1 = k
    · simp only [mapDel, if_pos hk] at h
      exact ⟨List.mem_cons_of_mem q (ih h).1, (ih h).2⟩
    · simp only [mapDel, if_neg hk] at h
      rcases List.mem_cons.mp h with h' | h'
      · exact ⟨h' ▸ List.mem_cons_self q rest, h' ▸ hk⟩
      · exact ⟨List.mem_cons_of_mem q (ih h').1, (ih h').2⟩

theorem mapSet_of_not_mem_keys {α : Type} {m : List (GoStr × α)} {k : GoStr} (v : α)
    (h : k ∉ mapKeys m) : mapSet m k v = m ++ [(k, v)] := by
  induction m with
  | nil => rfl
  | cons q rest ih =>
    have hk : ¬ q.1 = k := by
      intro hc
      apply h
      rw [mapKeys_cons, hc]
      exact List.mem_cons_self _ _
    have ht := ih (fun hc => h (by rw [mapKeys_cons]; exact List.mem_cons_of_mem _ hc))
    simp only [mapSet, if_neg hk, ht, List.cons_append]

theorem mapKeys_mapSet_of_mem {α : Type} {m : List (GoStr × α)} {k : GoStr} (v : α)
    (h : k ∈ mapKeys m) : mapKeys (mapSet m k v) = mapKeys m := by
  induction m with
  | nil => simp [mapKeys] at h
  | cons q rest ih =>
    rcases q with ⟨qk, qv⟩
    by_cases hk : qk = k
    · subst hk
      simp [mapSet, mapKeys_cons]
    · have hmem : k ∈ mapKeys rest := by
        rw [mapKeys_cons] at h
        rcases List.mem_cons.mp h with h' | h'
        · exact absurd h'.symm hk
        · exact h'
      simp only [mapSet, if_neg hk, mapKeys_cons, ih hmem]

theorem nodupKeys_mapSet {α : Type} {m : List (GoStr × α)} (k : GoStr) (v : α)
    (h : NodupKeys m) : NodupKeys (mapSet m k v) := by
  by_cases hk : k ∈ mapKeys m
  · unfold NodupKeys
    rw [mapKeys_mapSet_of_mem v hk]
    exact h
  · unfold NodupKeys
    rw [mapSet_of_not_mem_keys v hk]
    unfold mapKeys at *
    rw [List.map_append]
    simp only [List.map_cons, List.map_nil]
    rw [List.nodup_append]
    refine ⟨h, List.nodup_singleton _, ?_⟩
    intro x hx hmem
    rcases List.mem_singleton.mp hmem with rfl
    exact hk hx

theorem mapGet_eq_none_of_not_mem {α : Type} {m : List (GoStr × α)} {k : GoStr}
    (h : k ∉ mapKeys m) : mapGet m k = none := by
  induction m with
  | nil => rfl
  | cons q rest ih =>
    have hk : ¬ q.1 = k := by
      intro hc
      apply h
      rw [mapKeys_cons, hc]
      exact List.mem_cons_self _ _
    have ht := ih (fun hc => h (by rw [mapKeys_cons]; exact List.mem_cons_of_mem _ hc))
    simp [mapGet, hk, ht]

theorem mapGet_of_mem {α : Type} {m : List (GoStr × α)} {k : GoStr} {v : α}
    (hn : NodupKeys m) (h : (k, v) ∈ m) : mapGet m k = some v := by
  induction m with
  | nil => simp at h
  | cons q rest ih =>
    have hcons := List.nodup_cons.mp hn
    rcases List.mem_cons.mp h with h' | h'
    · rw [← h']
      simp [mapGet]
    · have hq : ¬ q.1 = k := by
        intro hc
        apply hcons.1
        rw [hc]
        exact List.mem_map_of_mem Prod.fst h'
      simp [mapGet, hq, ih hcons.2 h']

theorem mem_of_mapGet_some {α : Type} {m : List (GoStr × α)} {k : GoStr} {v : α}
    (h : mapGet m k = some v) : (k, v) ∈ m := by
  induction m with
  | nil => simp [mapGet] at h
  | cons q rest ih =>
    by_cases hq : q.1 = k
    · simp only [mapGet, if_pos hq] at h
      have : q = (k, v) := by
        rcases q with ⟨qk, qv⟩
        simp at hq h
        simp [hq, h]
      simp [this]
    · simp only [mapGet, if_neg hq] at h
      exact List.mem_cons_of_mem q (ih h)

theorem mapGet_congr_perm {α : Type} {l₁ l₂ : List (GoStr × α)}
    (hn : NodupKeys l₁) (hp : List.Perm l₁ l₂) (k : GoStr) :
    mapGet l₁ k = mapGet l₂ k := by
  have hn₂ : NodupKeys l₂ := ((hp.map Prod.fst).nodup_iff).mp hn
  rcases hg : mapGet l₁ k with _ | v
  · rcases hg₂ : mapGet l₂ k with _ | v₂
    · rfl
    · exfalso
      have hmem := mem_of_mapGet_some hg₂
      have : (k, v₂) ∈ l₁ := hp.mem_iff.mpr hmem
      rw [mapGet_of_mem hn this] at hg
      exact Option.noConfusion hg
  · have hmem := mem_of_mapGet_some hg
    exact (mapGet_of_mem hn₂ (hp.mem_iff.mp hmem)).symm

/- ### Routing-table characterization lemmas -/

theorem mapGet_purgeToken {tbl : List (GoStr × routeBinding)} (t : GoStr)
    (hn : NodupKeys tbl) (h : GoStr) :
    mapGet (purgeToken tbl t) h =
      match mapGet tbl h with
      | some b => if b.token = t then none else some b
      | none => none := by
  induction tbl with
  | nil => rfl
  | cons p rest ih =>
    rcases p with ⟨k, b⟩
    have hcons := List.nodup_cons.mp hn
    have ihr := ih hcons.2
    by_cases hb : b.token = t
    · simp only [purgeToken, if_pos hb]
      by_cases hk : k = h
      · subst hk
        have hnone : mapGet rest k = none :=
          mapGet_eq_none_of_not_mem (fun hc => hcons.1 hc)
        rw [ihr, hnone]
        simp [mapGet, hb]
      · rw [ihr]
        simp [mapGet, hk]
    · simp only [purgeToken, if_neg hb]
      by_cases hk : k = h
      · subst hk
        simp [mapGet, hb]
      · simp only [mapGet, if_neg hk]
        exact ihr

theorem lastValidTarget_cons (r : Route) (rest : List Route) (h : GoStr) :
    lastValidTarget (r :: rest) h =
      match lastValidTarget rest h with
      | some tg => some tg
      | none =>
        if normalizeHost r.hostname = [] ∨ trimSpace r.target = [] then none
        else if normalizeHost r.hostname = h then some (trimSpace r.target) else none := rfl

theorem applyRoutes_loop (t : GoStr) (rs : List Route) :
    ∀ (acc : List (GoStr × routeBinding)) (h : GoStr),
      mapGet (rs.foldl (applyRouteStep t) acc) h =
        match lastValidTarget rs h with
        | some tg => some ⟨t, tg⟩
        | none => mapGet acc h := by
  induction rs with
  | nil =>
    intro acc h
    simp [lastValidTarget]
  | cons r rest ih =>
    intro acc h
    rw [List.foldl_cons, ih, lastValidTarget_cons r rest h]
    rcases hl : lastValidTarget rest h with _ | tg
    · simp only []
      by_cases hv : normalizeHost r.hostname = [] ∨ trimSpace r.target = []
      · simp only [applyRouteStep, if_pos hv]
      · simp only [applyRouteStep, if_neg hv]
        by_cases hh : normalizeHost r.hostname = h
        · subst hh
          simp [mapGet_mapSet_self]
        · simp [hh, mapGet_mapSet_ne _ _ hh]
    · simp only []

/- ### Claim C1 -/

/-- C1 counterexample: `applyRoutes` does not normalize hostnames by the
section-3 rules.  The route `App.Example.Com. → x:1` is installed under
`app.example.com.` (trailing dot kept), not under the §3-normalized
`app.example.com`, so the binding set differs from the §3-normalized route
set that the claim demands. -/
theorem applyRoutes_not_sec3_normalized :
    NormalizeHostname (gs "App.Example.Com.") = .ok (gs "app.example.com") ∧
    mapGet (applyRoutes (gs "t") [⟨gs "App.Example.Com.", gs "x:1"⟩] [])
      (gs "app.example.com") = none ∧
    mapGet (applyRoutes (gs "t") [⟨gs "App.Example.Com.", gs "x:1"⟩] [])
      (gs "app.example.com.") = some ⟨gs "t", gs "x:1"⟩ ∧
    ¬ applyRoutes (gs "t") [⟨gs "App.Example.Com.", gs "x:1"⟩] [] =
      applyRoutesSpec (gs "t") [⟨gs "App.Example.Com.", gs "x:1"⟩] [] := by
  refine ⟨by decide, by decide, by decide, by decide⟩

/-- C1 amended: after `applyRoutes(t, R)` on a table with nodup keys, the
lookup of any hostname `h` yields: the binding `(t, target)` of the last route
of `R` whose gateway-normalized (`normalizeHost`, not §3) hostname is `h` and
whose normalized hostname and trimmed target are nonempty; otherwise the old
binding unless it was owned by `t` (all of `t`'s old bindings are removed).
So `t`'s binding set equals exactly the valid routes of `R` under the
gateway's own normalization, and other owners' bindings not named in `R`
are unchanged. -/
theorem applyRoutes_characterization (t : GoStr) (rs : List Route)
    (tbl : List (GoStr × routeBinding)) (hn : NodupKeys tbl) (h : GoStr) :
    mapGet (applyRoutes t rs tbl) h =
      match lastValidTarget rs h with
      | some tg => some ⟨t, tg⟩
      | none =>
        match mapGet tbl h with
        | some b => if b.token = t then none else some b
        | none => none := by
  unfold applyRoutes
  rw [applyRoutes_loop, mapGet_purgeToken t hn h]

/-- C1 witness: the amended characterization at a concrete table. -/
theorem applyRoutes_characterization_witness :
    mapGet (applyRoutes (gs "t") [⟨gs "A.B", gs "x:1"⟩]
        [(gs "h", ⟨gs "u", gs "y:2"⟩), (gs "g", ⟨gs "t", gs "z:3"⟩)]) (gs "a.b")
      = some ⟨gs "t", gs "x:1"⟩ ∧
    mapGet (applyRoutes (gs "t") [⟨gs "A.B", gs "x:1"⟩]
        [(gs "h", ⟨gs "u", gs "y:2"⟩), (gs "g", ⟨gs "t", gs "z:3"⟩)]) (gs "h")
      = some ⟨gs "u", gs "y:2"⟩ ∧
    mapGet (applyRoutes (gs "t") [⟨gs "A.B", gs "x:1"⟩]
        [(gs "h", ⟨gs "u", gs "y:2"⟩), (gs "g", ⟨gs "t", gs "z:3"⟩)]) (gs "g")
      = none := by
  refine ⟨?_, ?_, ?_⟩ <;>
    rw [applyRoutes_characterization (gs "t") _ _ (by decide) _] <;> decide

/- ### Claim C2 -/

/-- C2: the gateway's public handler produces exactly the advertised gateway
statuses: 400 when the normalized Host is empty, 404 when no binding exists
for the normalized host, 503 when the binding's token has no live session,
502 when the envelope write fails, and 504 when no response arrives within
the request timeout. -/
theorem handlePublicHTTP_status_codes (st : GatewayState) (r : PublicRequest)
    (readErr writeOk : Bool) (rid : GoStr) (resp? : Option Envelope) :
    (normalizeHost r.host = [] →
      (HandlePublicHTTP st r readErr writeOk rid resp?).1 =
        .errorResp 400 (gs "invalid host")) ∧
    (¬ normalizeHost r.host = [] →
      mapGet st.routes (normalizeHost r.host) = none →
      (HandlePublicHTTP st r readErr writeOk rid resp?).1 =
        .errorResp 404 (gs "404 page not found")) ∧
    (∀ b, ¬ normalizeHost r.host = [] →
      mapGet st.routes (normalizeHost r.host) = some b →
      mapGet st.agents b.token = none →
      (HandlePublicHTTP st r readErr writeOk rid resp?).1 =
        .errorResp 503 (gs "tunnel offline")) ∧
    (∀ b sid, ¬ normalizeHost r.host = [] →
      mapGet st.routes (normalizeHost r.host) = some b →
      mapGet st.agents b.token = some sid →
      readErr = false → writeOk = false →
      (HandlePublicHTTP st r readErr writeOk rid resp?).1 =
        .errorResp 502 (gs "send to tunnel failed")) ∧
    (∀ b sid, ¬ normalizeHost r.host = [] →
      mapGet st.routes (normalizeHost r.host) = some b →
      mapGet st.agents b.token = some sid →
      readErr = false → writeOk = true → resp? = none →
      (HandlePublicHTTP st r readErr writeOk rid resp?).1 =
        .errorResp 504 (gs "tunnel timeout")) := by
  refine ⟨?_, ?_, ?_, ?_, ?_⟩
  · intro h0
    simp [HandlePublicHTTP, h0]
  · intro h0 h1
    simp [HandlePublicHTTP, h0, h1]
  · intro b h0 h1 h2
    simp [HandlePublicHTTP, h0, h1, h2]
  · intro b sid h0 h1 h2 h3 h4
    subst h3
    subst h4
    simp [HandlePublicHTTP, h0, h1, h2]
  · intro b sid h0 h1 h2 h3 h4 h5
    subst h3
    subst h4
    subst h5
    simp [HandlePublicHTTP, h0, h1, h2]

/-- C2 witness: the five advertised statuses observed on concrete states. -/
theorem handlePublicHTTP_status_codes_witness :
    (HandlePublicHTTP ⟨[], []⟩ ⟨gs "", gs "GET", gs "/", [], [], [], gs "c:1", false⟩
      false true (gs "1") none).1 = .errorResp 400 (gs "invalid host") ∧
    (HandlePublicHTTP ⟨[], []⟩ ⟨gs "a.b", gs "GET", gs "/", [], [], [], gs "c:1", false⟩
      false true (gs "1") none).1 = .errorResp 404 (gs "404 page not found") ∧
    (HandlePublicHTTP ⟨[], [(gs "a.b", ⟨gs "t", gs "x:1"⟩)]⟩
      ⟨gs "a.b", gs "GET", gs "/", [], [], [], gs "c:1", false⟩
      false true (gs "1") none).1 = .errorResp 503 (gs "tunnel offline") ∧
    (HandlePublicHTTP ⟨[(gs "t", 1)], [(gs "a.b", ⟨gs "t", gs "x:1"⟩)]⟩
      ⟨gs "a.b", gs "GET", gs "/", [], [], [], gs "c:1", false⟩
      false false (gs "1") none).1 = .errorResp 502 (gs "send to tunnel failed") ∧
    (HandlePublicHTTP ⟨[(gs "t", 1)], [(gs "a.b", ⟨gs "t", gs "x:1"⟩)]⟩
      ⟨gs "a.b", gs "GET", gs "/", [], [], [], gs "c:1", false⟩
      false true (gs "1") none).1 = .errorResp 504 (gs "tunnel timeout") := by
  refine ⟨?_, ?_, ?_, ?_, ?_⟩
  · exact (handlePublicHTTP_status_codes _ _ _ _ _ _).1 (by decide)
  · exact (handlePublicHTTP_status_codes _ _ _ _ _ _).2.1 (by decide) (by decide)
  · exact (handlePublicHTTP_status_codes _ _ _ _ _ _).2.2.1 ⟨gs "t", gs "x:1"⟩
      (by decide) (by decide) (by decide)
  · exact (handlePublicHTTP_status_codes _ _ _ _ _ _).2.2.2.1 ⟨gs "t", gs "x:1"⟩ 1
      (by decide) (by decide) (by decide) rfl rfl
  · exact (handlePublicHTTP_status_codes _ _ _ _ _ _).2.2.2.2 ⟨gs "t", gs "x:1"⟩ 1
      (by decide) (by decide) (by decide) rfl rfl rfl

/- ### Claim C3 -/

/-- C3 counterexample: accepting a new connection for a live token swaps the
registry entry but does NOT purge the token's routing-table bindings before
the new session publishes: the old binding survives the swap, and the
superseded session's cleanup is a no-op because the registry no longer points
at it.  (The purge the claim describes only happens inside the next
`register_routes`.) -/
theorem swapAgent_does_not_purge_bindings :
    (swapAgent ⟨[(gs "t", 1)], [(gs "h", ⟨gs "t", gs "x:1"⟩)]⟩ (gs "t") 2).1.routes
      = [(gs "h", ⟨gs "t", gs "x:1"⟩)] ∧
    cleanupAgent (swapAgent ⟨[(gs "t", 1)], [(gs "h", ⟨gs "t", gs "x:1"⟩)]⟩ (gs "t") 2).1
        (gs "t") 1
      = (swapAgent ⟨[(gs "t", 1)], [(gs "h", ⟨gs "t", gs "x:1"⟩)]⟩ (gs "t") 2).1 ∧
    mapGet (swapAgent ⟨[(gs "t", 1)], [(gs "h", ⟨gs "t", gs "x:1"⟩)]⟩ (gs "t") 2).1.routes
        (gs "h") = some ⟨gs "t", gs "x:1"⟩ := by
  refine ⟨by decide, by decide, by decide⟩

/-- C3 amended: on accepting a new connection for a live token, the registry
atomically points at the new session (still one entry per token — nodup keys
are preserved), the previous session is returned for closing, the routing
table is untouched by the swap, and the superseded session's later cleanup is
a no-op; the token's old bindings are only replaced when the new session's
`register_routes` is applied. -/
theorem session_swap_amended (st : GatewayState) (t : GoStr) (oldSid newSid : Nat)
    (hn : NodupKeys st.agents) (hold : mapGet st.agents t = some oldSid)
    (hne : ¬ newSid = oldSid) :
    mapGet (swapAgent st t newSid).1.agents t = some newSid ∧
    NodupKeys (swapAgent st t newSid).1.agents ∧
    (swapAgent st t newSid).1.routes = st.routes ∧
    (swapAgent st t newSid).2 = some oldSid ∧
    cleanupAgent (swapAgent st t newSid).1 t oldSid = (swapAgent st t newSid).1 := by
  refine ⟨mapGet_mapSet_self _ _ _, nodupKeys_mapSet _ _ hn, rfl, hold, ?_⟩
  unfold cleanupAgent
  have hget : mapGet (swapAgent st t newSid).1.agents t = some newSid :=
    mapGet_mapSet_self _ _ _
  rw [hget]
  simp [hne]

/-- C3 witness: the amended swap behavior on a concrete state. -/
theorem session_swap_amended_witness :
    mapGet (swapAgent ⟨[(gs "t", 1)], [(gs "h", ⟨gs "t", gs "x:1"⟩)]⟩ (gs "t") 2).1.agents
        (gs "t") = some 2 ∧
    cleanupAgent (swapAgent ⟨[(gs "t", 1)], [(gs "h", ⟨gs "t", gs "x:1"⟩)]⟩ (gs "t") 2).1
        (gs "t") 1
      = (swapAgent ⟨[(gs "t", 1)], [(gs "h", ⟨gs "t", gs "x:1"⟩)]⟩ (gs "t") 2).1 := by
  have h := session_swap_amended ⟨[(gs "t", 1)], [(gs "h", ⟨gs "t", gs "x:1"⟩)]⟩
    (gs "t") 1 2 (by decide) (by decide) (by decide)
  exact ⟨h.1, h.2.2.2.2⟩

/- ### Claim C4 -/

/-- C4 counterexample: when base64-decoding of the body fails, the gateway
does NOT emit 502 — the status line (here 200) is already written before the
body is decoded; only the plaintext diagnostic body is emitted. -/
theorem writeResponse_decode_failure_keeps_status :
    base64Decode (gs "!!!") = none ∧
    (writeResponse { Envelope.empty with status := 200, body := gs "!!!" }).1 = 200 ∧
    (writeResponse { Envelope.empty with status := 200, body := gs "!!!" }).2.2
      = strBytes (gs "decode response body failed") ∧
    ¬ (writeResponse { Envelope.empty with status := 200, body := gs "!!!" }).1 = 502 := by
  refine ⟨by decide, by decide, by decide, by decide⟩

/-- C4 amended: the emitted status always equals the envelope's status, with
502 substituted when that status is zero — including on decode failure, where
the body (not the status) becomes the plaintext diagnostic. -/
theorem writeResponse_status_and_diagnostic (resp : Envelope) :
    (writeResponse resp).1 = (if resp.status = 0 then 502 else resp.status) ∧
    (¬ resp.body = [] → base64Decode resp.body = none →
      (writeResponse resp).2.2 = strBytes (gs "decode response body failed")) := by
  constructor
  · rfl
  · intro hb hd
    simp [writeResponse, hb, hd]

/-- C4 witness: a zero-status envelope with an undecodable body yields 502
with the diagnostic body. -/
theorem writeResponse_status_and_diagnostic_witness :
    (writeResponse { Envelope.empty with status := 0, body := gs "!!!" }).1 = 502 ∧
    (writeResponse { Envelope.empty with status := 0, body := gs "!!!" }).2.2
      = strBytes (gs "decode response body failed") := by
  have h := writeResponse_status_and_diagnostic { Envelope.empty with status := 0, body := gs "!!!" }
  exact ⟨h.1.trans (by decide), h.2 (by decide) (by decide)⟩

/- ### Claim C10 -/

theorem buildNext_error_of_invalid :
    ∀ (routes : List Route) (acc : RouteMap),
      (∃ r ∈ routes, (∃ e, NormalizeHostname r.hostname = .error e) ∨
        (∃ e, NormalizeTarget r.target = .error e)) →
      ∃ e, buildNext acc routes = .error e := by
  intro routes
  induction routes with
  | nil =>
    intro acc h
    rcases h with ⟨r, hr, _⟩
    simp at hr
  | cons r rest ih =>
    intro acc h
    rcases hh : NormalizeHostname r.hostname with eh | host
    · exact ⟨eh, by simp [buildNext, hh]⟩
    · rcases ht : NormalizeTarget r.target with et | target
      · exact ⟨et, by simp [buildNext, hh, ht]⟩
      · have hrest : ∃ q ∈ rest, (∃ e, NormalizeHostname q.hostname = .error e) ∨
            (∃ e, NormalizeTarget q.target = .error e) := by
          rcases h with ⟨q, hq, hbad⟩
          rcases List.mem_cons.mp hq with rfl | hq'
          · exfalso
            rcases hbad with ⟨e, he⟩ | ⟨e, he⟩
            · rw [hh] at he
              exact Except.noConfusion he
            · rw [ht] at he
              exact Except.noConfusion he
          · exact ⟨q, hq', hbad⟩
        rcases ih (mapSet acc host target) hrest with ⟨e, he⟩
        exact ⟨e, by simp [buildNext, hh, ht, he]⟩

/-- C10: when any route in the list fails hostname or target normalization,
`ReplaceAll` reports `changed = false` together with the error, and the whole
store — both the in-memory route set and the persisted file — is left exactly
as it was: the replacement is rejected atomically before any mutation. -/
theorem replaceAll_rejects_invalid (s : ConfigStore) (routes : List Route)
    (hbad : ∃ r ∈ routes, (∃ e, NormalizeHostname r.hostname = .error e) ∨
      (∃ e, NormalizeTarget r.target = .error e)) :
    ∃ e, ReplaceAll s routes = (false, some e, s) := by
  rcases buildNext_error_of_invalid routes [] hbad with ⟨e, he⟩
  exact ⟨e, by simp [ReplaceAll, he]⟩

/-- C10 witness: a list containing a space-ridden hostname is rejected whole,
leaving a concrete store untouched. -/
theorem replaceAll_rejects_invalid_witness :
    ∃ e, ReplaceAll ⟨[(gs "a.b", gs "x:1")], [⟨gs "a.b", gs "x:1"⟩]⟩
      [⟨gs "c.d", gs "y:2"⟩, ⟨gs "bad host", gs "z:3"⟩]
      = (false, some e, ⟨[(gs "a.b", gs "x:1")], [⟨gs "a.b", gs "x:1"⟩]⟩) :=
  replaceAll_rejects_invalid _ _
    ⟨⟨gs "bad host", gs "z:3"⟩, by decide,
      Or.inl ⟨gs "hostname cannot contain spaces", by decide⟩⟩

/- ### Claim C8 -/

theorem loadRoutes_fold_normalized :
    ∀ (rs : List (GoStr × GoStr)) (acc : RouteMap),
      (∀ p ∈ rs, NormalizeHostname p.1 = .ok p.1 ∧ NormalizeTarget p.2 = .ok p.2) →
      (∀ p ∈ rs, p.1 ∉ mapKeys acc) →
      (mapKeys rs).Nodup →
      List.foldl loadRouteStep acc (rs.map (fun p => ⟨p.1, p.2⟩)) = acc ++ rs := by
  intro rs
  induction rs with
  | nil =>
    intro acc _ _ _
    simp
  | cons p rest ih =>
    intro acc hnorm hdisj hnodup
    rcases p with ⟨ph, pt⟩
    have hp := hnorm (ph, pt) (List.mem_cons_self _ _)
    have hstep : loadRouteStep acc ⟨ph, pt⟩ = acc ++ [(ph, pt)] := by
      unfold loadRouteStep
      rw [hp.1, hp.2]
      exact mapSet_of_not_mem_keys pt (hdisj (ph, pt) (List.mem_cons_self _ _))
    rw [List.map_cons, List.foldl_cons, hstep]
    have hnodup' : (mapKeys rest).Nodup := (List.nodup_cons.mp hnodup).2
    have hph : ph ∉ mapKeys rest := by
      have := (List.nodup_cons.mp hnodup).1
      simpa [mapKeys] using this
    have hdisj' : ∀ q ∈ rest, q.1 ∉ mapKeys (acc ++ [(ph, pt)]) := by
      intro q hq hc
      unfold mapKeys at hc
      rw [List.map_append] at hc
      rcases List.mem_append.mp hc with hc' | hc'
      · exact hdisj q (List.mem_cons_of_mem _ hq) hc'
      · simp at hc'
        apply hph
        rw [← hc']
        exact List.mem_map_of_mem Prod.fst hq
    have hnorm' : ∀ q ∈ rest, NormalizeHostname q.1 = .ok q.1 ∧ NormalizeTarget q.2 = .ok q.2 :=
      fun q hq => hnorm q (List.mem_cons_of_mem _ hq)
    rw [ih (acc ++ [(ph, pt)]) hnorm' hdisj' hnodup']
    simp

/-- C8: for a valid store state (nodup keys, every hostname and target already
in normalized form), loading the document produced by saving yields exactly
the same route set: lookups agree on every hostname. -/
theorem configStore_save_load_roundtrip (s : ConfigStore)
    (hn : NodupKeys s.routes)
    (hnorm : ∀ p ∈ s.routes,
      NormalizeHostname p.1 = .ok p.1 ∧ NormalizeTarget p.2 = .ok p.2) :
    ∀ h, mapGet (saveThenLoad s).routes h = mapGet s.routes h := by
  intro h
  have hperm : List.Perm (List.insertionSort routeMapLt s.routes) s.routes :=
    List.perm_insertionSort _ _
  have hnorm' : ∀ p ∈ List.insertionSort routeMapLt s.routes,
      NormalizeHostname p.1 = .ok p.1 ∧ NormalizeTarget p.2 = .ok p.2 :=
    fun p hp => hnorm p (hperm.mem_iff.mp hp)
  have hnodup' : (mapKeys (List.insertionSort routeMapLt s.routes)).Nodup :=
    ((hperm.map Prod.fst).nodup_iff).mpr hn
  have hload : (saveThenLoad s).routes
      = [] ++ List.insertionSort routeMapLt s.routes := by
    unfold saveThenLoad loadRoutes snapshotLocked
    exact loadRoutes_fold_normalized _ [] hnorm' (by simp [mapKeys]) hnodup'
  rw [hload, List.nil_append]
  exact mapGet_congr_perm hnodup' hperm h

/-- C8 witness: a concrete two-route valid store round-trips. -/
theorem configStore_save_load_roundtrip_witness :
    mapGet (saveThenLoad ⟨[(gs "b.c", gs "y:2"), (gs "a.b", gs "x:1")], []⟩).routes (gs "a.b")
      = some (gs "x:1") ∧
    mapGet (saveThenLoad ⟨[(gs "b.c", gs "y:2"), (gs "a.b", gs "x:1")], []⟩).routes (gs "b.c")
      = some (gs "y:2") := by
  have h := configStore_save_load_roundtrip ⟨[(gs "b.c", gs "y:2"), (gs "a.b", gs "x:1")], []⟩
    (by decide) (by decide)
  exact ⟨(h (gs "a.b")).trans (by decide), (h (gs "b.c")).trans (by decide)⟩

/- ### Claim C6 -/

/-- C6 counterexample: a request body one byte over the 10 MiB cap is NOT
rejected with 400 — `io.LimitReader` silently truncates it to the cap and the
handler proceeds, forwarding the truncated body in the `proxy_request`
envelope (here the request then times out with 504, the truncated body having
been forwarded). -/
theorem oversized_body_truncated_not_rejected :
    (List.replicate (maxBodySize + 1) (0 : Nat)).length > maxBodySize ∧
    (HandlePublicHTTP ⟨[(gs "t", 1)], [(gs "a.b", ⟨gs "t", gs "x:1"⟩)]⟩
      ⟨gs "a.b", gs "GET", gs "/", [], [], List.replicate (maxBodySize + 1) 0, gs "c:1", false⟩
      false true (gs "1") none).1 = .errorResp 504 (gs "tunnel timeout") ∧
    ((HandlePublicHTTP ⟨[(gs "t", 1)], [(gs "a.b", ⟨gs "t", gs "x:1"⟩)]⟩
      ⟨gs "a.b", gs "GET", gs "/", [], [], List.replicate (maxBodySize + 1) 0, gs "c:1", false⟩
      false true (gs "1") none).2).map Envelope.body
      = some (base64Encode (List.replicate maxBodySize 0)) := by
  refine ⟨?_, rfl, ?_⟩
  · rw [List.length_replicate]
    omega
  · show some (base64Encode ((List.replicate (maxBodySize + 1) (0 : Nat)).take maxBodySize)) = _
    rw [List.take_replicate, min_eq_left (by omega : maxBodySize ≤ maxBodySize + 1)]

/-- C6 amended: neither side rejects an oversized body with 400.  The gateway
truncates the request body to the 10 MiB cap and forwards it (its 400 only
arises from a body read error), and the agent likewise truncates the local
response body to the cap and returns it with the local status (its read
failure yields 502, not 400). -/
theorem body_cap_truncates_amended (st : GatewayState) (r : PublicRequest)
    (writeOk : Bool) (rid : GoStr) (resp? : Option Envelope) :
    (∀ env, (HandlePublicHTTP st r false writeOk rid resp?).2 = some env →
      env.body = base64Encode (r.body.take maxBodySize)) ∧
    ¬ (HandlePublicHTTP st r false writeOk rid resp?).1 =
      .errorResp 400 (gs "read request failed") ∧
    (∀ (req : Envelope) (lr : LocalResult) (bs : List Nat), ¬ req.target = [] →
      base64Decode req.body = some bs →
      (forwardToLocal req (some lr) false).1 = lr.status ∧
      (forwardToLocal req (some lr) false).2.2 = lr.body.take maxProxyBodySize) := by
  refine ⟨?_, ?_, ?_⟩
  · intro env henv
    unfold HandlePublicHTTP at henv
    by_cases h0 : normalizeHost r.host = []
    · simp [h0] at henv
    · rcases hr : mapGet st.routes (normalizeHost r.host) with _ | b
      · simp [h0, hr] at henv
      · rcases ha : mapGet st.agents b.token with _ | sid
        · simp [h0, hr, ha] at henv
        · rcases hw : writeOk with _ | _
          · simp [h0, hr, ha, hw] at henv
            rw [← henv]
          · rcases hresp : resp? with _ | resp
            · simp [h0, hr, ha, hw, hresp] at henv
              rw [← henv]
            · simp [h0, hr, ha, hw, hresp] at henv
              rw [← henv]
  · unfold HandlePublicHTTP
    by_cases h0 : normalizeHost r.host = []
    · simp [h0]
      decide
    · rcases hr : mapGet st.routes (normalizeHost r.host) with _ | b
      · simp [h0, hr]
      · rcases ha : mapGet st.agents b.token with _ | sid
        · simp [h0, hr, ha]
        · rcases hw : writeOk with _ | _
          · simp [h0, hr, ha, hw]
          · rcases hresp : resp? with _ | resp
            · simp [h0, hr, ha, hw, hresp]
            · simp [h0, hr, ha, hw, hresp]
  · intro req lr bs ht hd
    unfold forwardToLocal
    rw [if_neg ht, hd]
    exact ⟨rfl, rfl⟩

/-- C6 witness: the amended truncation behaviour at a tiny concrete request
and a concrete agent-side local response. -/
theorem body_cap_truncates_amended_witness :
    ((HandlePublicHTTP ⟨[(gs "t", 1)], [(gs "a.b", ⟨gs "t", gs "x:1"⟩)]⟩
      ⟨gs "a.b", gs "GET", gs "/", [], [], [1, 2, 3], gs "c:1", false⟩
      false true (gs "1") none).2).map Envelope.body
      = some (base64Encode ([1, 2, 3].take maxBodySize)) ∧
    (forwardToLocal { Envelope.empty with target := gs "x:1" }
      (some ⟨200, [], [7, 8, 9]⟩) false).2.2 = [7, 8, 9].take maxProxyBodySize := by
  constructor
  · exact congrArg some ((body_cap_truncates_amended
      ⟨[(gs "t", 1)], [(gs "a.b", ⟨gs "t", gs "x:1"⟩)]⟩
      ⟨gs "a.b", gs "GET", gs "/", [], [], [1, 2, 3], gs "c:1", false⟩
      true (gs "1") none).1 _ rfl)
  · exact ((body_cap_truncates_amended ⟨[], []⟩ ⟨[], [], [], [], [], [], [], false⟩
      true [] none).2.2 { Envelope.empty with target := gs "x:1" }
      ⟨200, [], [7, 8, 9]⟩ [] (by decide) (by decide)).2

/- ### Claim C9 -/

theorem normalizeTarget_ok_inv {x t : GoStr} (hx : NormalizeTarget x = .ok t) :
    t = trimSpace x ∧ ¬ trimSpace x = [] ∧
    (substrIn (gs "http://") (trimSpace x) || substrIn (gs "https://") (trimSpace x)) = false ∧
    strContains (trimSpace x) ':' = true := by
  simp only [NormalizeTarget] at hx
  split at hx
  · exact absurd hx (by simp)
  · next h1 =>
    split at hx
    · exact absurd hx (by simp)
    · next h2 =>
      split at hx
      · exact absurd hx (by simp)
      · next h3 =>
        refine ⟨(Except.ok.inj hx).symm, h1, ?_, ?_⟩
        · rcases hb : substrIn (gs "http://") (trimSpace x) || substrIn (gs "https://") (trimSpace x)
          · rfl
          · exact absurd hb h2
        · rcases hb : strContains (trimSpace x) ':'
          · exact absurd hb h3
          · rfl

theorem normalizeTarget_idem {x t : GoStr} (hx : NormalizeTarget x = .ok t) :
    NormalizeTarget t = .ok t := by
  obtain ⟨rfl, h1, h2, h3⟩ := normalizeTarget_ok_inv hx
  simp only [NormalizeTarget]
  rw [trimSpace_idem]
  rw [if_neg h1, if_neg (by simp [h2]), if_neg (by simp [h3])]

theorem normalizeHostname_ok_inv {x h : GoStr} (hx : NormalizeHostname x = .ok h) :
    h = trimSuffixStr (trimSpace (goToLower x)) (gs ".") ∧ ¬ h = [] ∧
    strContains h ' ' = false ∧ strContains h ':' = false ∧ strContains h '.' = true := by
  simp only [NormalizeHostname] at hx
  split at hx
  · exact absurd hx (by simp)
  · next h1 =>
    split at hx
    · exact absurd hx (by simp)
    · next h2 =>
      split at hx
      · exact absurd hx (by simp)
      · next h3 =>
        split at hx
        · exact absurd hx (by simp)
        · next h4 =>
          have heq := (Except.ok.inj hx).symm
          subst heq
          refine ⟨rfl, h1, ?_, ?_, ?_⟩
          · rcases hb : strContains (trimSuffixStr (trimSpace (goToLower x)) (gs ".")) ' '
            · rfl
            · exact absurd hb h2
          · rcases hb : strContains (trimSuffixStr (trimSpace (goToLower x)) (gs ".")) ':'
            · rfl
            · exact absurd hb h3
          · rcases hb : strContains (trimSuffixStr (trimSpace (goToLower x)) (gs ".")) '.'
            · exact absurd hb h4
            · rfl

theorem mem_trimSuffixStr {c : Char} {s suf : GoStr} (h : c ∈ trimSuffixStr s suf) : c ∈ s := by
  unfold trimSuffixStr at h
  split at h
  · exact List.mem_of_mem_take h
  · exact h

theorem normalizeHostname_lower_fix {x h : GoStr} (hx : NormalizeHostname x = .ok h) :
    goToLower h = h := by
  obtain ⟨heq, -, -, -, -⟩ := normalizeHostname_ok_inv hx
  subst heq
  apply map_eq_self_of_mem
  intro c hc
  exact goToLower_fix_of_mem_lower (mem_trimSpace (mem_trimSuffixStr hc))

theorem normalizeHostname_idem {x h : GoStr} (hx : NormalizeHostname x = .ok h)
    (htrim : trimSpace h = h) (hdot : strEndsWith h (gs ".") = false) :
    NormalizeHostname h = .ok h := by
  have hlow := normalizeHostname_lower_fix hx
  obtain ⟨-, h0, h1, h2, h3⟩ := normalizeHostname_ok_inv hx
  have hsuffix : trimSuffixStr h (gs ".") = h := by
    unfold trimSuffixStr
    rw [hdot]
    simp
  simp only [NormalizeHostname]
  rw [hlow, htrim, hsuffix]
  rw [if_neg h0, if_neg (by simp [h1]), if_neg (by simp [h2]), if_neg (by simp [h3])]

theorem normalizeHost_shape (x : GoStr) : ∃ y, normalizeHost x = trimSpace (goToLower y) := by
  simp only [normalizeHost]
  by_cases h0 : trimSpace (goToLower x) = []
  · rw [if_pos h0]
    exact ⟨x, h0.symm⟩
  · rw [if_neg h0]
    by_cases hc : strContains (trimSpace (goToLower x)) ':' = true
    · rw [if_pos hc]
      rcases hsp : splitHostPort (trimSpace (goToLower x)) with _ | hp
      · simp only [hsp]
        by_cases hcount : countChar (trimSpace (goToLower x)) ':' = 1
        · rw [if_pos hcount]
          exact ⟨_, rfl⟩
        · rw [if_neg hcount]
          exact ⟨x, rfl⟩
      · simp only [hsp]
        exact ⟨hp.1, rfl⟩
    · rw [if_neg hc]
      exact ⟨x, rfl⟩

theorem normalizeHost_fixpoint (x : GoStr) :
    trimSpace (goToLower (normalizeHost x)) = normalizeHost x := by
  obtain ⟨y, hy⟩ := normalizeHost_shape x
  rw [hy, goToLower_trimSpace_goToLower, trimSpace_idem]

theorem normalizeHost_eq_self_of_fix {r : GoStr} (hfix : trimSpace (goToLower r) = r)
    (hc : strContains r ':' = false) : normalizeHost r = r := by
  simp only [normalizeHost]
  rw [hfix]
  by_cases h0 : r = []
  · rw [if_pos h0]
    exact h0.symm
  · rw [if_neg h0, if_neg (by rw [hc]; exact Bool.false_ne_true)]

theorem normalizeHost_idem_no_colon {x : GoStr}
    (hc : strContains (normalizeHost x) ':' = false) :
    normalizeHost (normalizeHost x) = normalizeHost x :=
  normalizeHost_eq_self_of_fix (normalizeHost_fixpoint x) hc

/-- C9 counterexample: neither the gateway's `normalizeHost` nor the agent's
`NormalizeHostname` is idempotent on all inputs.  `normalizeHost "[a:b]:80"`
is `"a:b"`, which a second application splits down to `"a"`; and
`NormalizeHostname` accepts `"a.b.."` as `"a.b."` (TrimSuffix removes one
trailing dot only), while re-normalizing `"a.b."` yields `"a.b"`. -/
theorem normalization_not_idempotent :
    ¬ normalizeHost (normalizeHost (gs "[a:b]:80")) = normalizeHost (gs "[a:b]:80") ∧
    NormalizeHostname (gs "a.b..") = .ok (gs "a.b.") ∧
    NormalizeHostname (gs "a.b.") = .ok (gs "a.b") ∧
    ¬ NormalizeHostname (gs "a.b.") = .ok (gs "a.b.") := by
  refine ⟨by decide, by decide, by decide, by decide⟩

/-- C9 amended: `NormalizeTarget` re-normalization is the identity on every
accepted output; `normalizeHost` is idempotent whenever its result contains no
colon (the counterexample `[a:b]:80` shows it is not in general); and
`NormalizeHostname` re-accepts its output unchanged whenever that output has
no trailing dot and no trailing whitespace (the counterexample `a.b..` shows
it is not in general). -/
theorem normalization_idempotence_amended :
    (∀ x t, NormalizeTarget x = .ok t → NormalizeTarget t = .ok t) ∧
    (∀ x, strContains (normalizeHost x) ':' = false →
      normalizeHost (normalizeHost x) = normalizeHost x) ∧
    (∀ x h, NormalizeHostname x = .ok h → trimSpace h = h →
      strEndsWith h (gs ".") = false → NormalizeHostname h = .ok h) :=
  ⟨fun _ _ => normalizeTarget_idem, fun _ => normalizeHost_idem_no_colon,
   fun _ _ => normalizeHostname_idem⟩

/-- C9 witness: re-normalization fixed points at concrete inputs. -/
theorem normalization_idempotence_amended_witness :
    NormalizeTarget (gs "127.0.0.1:3000") = .ok (gs "127.0.0.1:3000") ∧
    normalizeHost (normalizeHost (gs "A.B:80")) = normalizeHost (gs "A.B:80") ∧
    NormalizeHostname (gs "app.example.com") = .ok (gs "app.example.com") := by
  refine ⟨?_, ?_, ?_⟩
  · exact normalization_idempotence_amended.1 (gs " 127.0.0.1:3000 ") _ (by decide)
  · exact normalization_idempotence_amended.2.1 (gs "A.B:80") (by decide)
  · exact normalization_idempotence_amended.2.2 (gs "App.Example.Com.") _
      (by decide) (by decide) (by decide)

/- ### Claim C7 -/

theorem isLowerAlpha_iff {c : Char} : isLowerAlpha c = true ↔ 97 ≤ c.toNat ∧ c.toNat ≤ 122 := by
  simp [isLowerAlpha]

theorem isUpperAlpha_iff {c : Char} : isUpperAlpha c = true ↔ 65 ≤ c.toNat ∧ c.toNat ≤ 90 := by
  simp [isUpperAlpha]

theorem isLowerAlpha_asciiLower_of_upper {c : Char} (h : isUpperAlpha c = true) :
    isLowerAlpha (asciiLower c) = true := by
  rw [isLowerAlpha_iff, asciiLower_toNat, if_pos (isUpperAlpha_iff.mp h)]
  have := isUpperAlpha_iff.mp h
  omega

theorem isLowerAlpha_of_upper_false {c : Char} (h : isUpperAlpha c = true) :
    isLowerAlpha c = false := by
  have hu := isUpperAlpha_iff.mp h
  rcases hb : isLowerAlpha c
  · rfl
  · have := isLowerAlpha_iff.mp hb
    omega

theorem isUpperAlpha_of_lower_false {c : Char} (h : isLowerAlpha c = true) :
    isUpperAlpha c = false := by
  have hl := isLowerAlpha_iff.mp h
  rcases hb : isUpperAlpha c
  · rfl
  · have := isUpperAlpha_iff.mp hb
    omega

theorem isUpperAlpha_asciiLower_false (c : Char) : isUpperAlpha (asciiLower c) = false := by
  by_cases h : 65 ≤ c.toNat ∧ c.toNat ≤ 90
  · rcases hb : isUpperAlpha (asciiLower c)
    · rfl
    · have := isUpperAlpha_iff.mp hb
      rw [asciiLower_toNat, if_pos h] at this
      omega
  · rw [asciiLower_of_not_upper h]
    rcases hb : isUpperAlpha c
    · rfl
    · exact absurd (isUpperAlpha_iff.mp hb) h

theorem asciiLower_of_lower {c : Char} (h : isLowerAlpha c = true) : asciiLower c = c := by
  apply asciiLower_of_not_upper
  have := isLowerAlpha_iff.mp h
  omega

theorem upperAlpha_eq_false {c : Char} (hc : ¬ isUpperAlpha c = true) :
    isUpperAlpha c = false := by
  rcases hb : isUpperAlpha c
  · rfl
  · exact absurd hb hc

theorem lowerAlpha_eq_false {c : Char} (hc : ¬ isLowerAlpha c = true) :
    isLowerAlpha c = false := by
  rcases hb : isLowerAlpha c
  · rfl
  · exact absurd hb hc

theorem asciiLower_canonChar (up : Bool) (c : Char) :
    asciiLower (canonChar up c) = asciiLower c := by
  unfold canonChar
  rcases up
  · simp only [Bool.false_eq_true, if_false]
    by_cases hc : isUpperAlpha c = true
    · rw [if_pos hc, asciiLower_idem]
    · rw [if_neg hc]
  · simp only [if_true]
    by_cases hc : isLowerAlpha c = true
    · rw [if_pos hc, asciiLower_asciiUpper_of_lower (isLowerAlpha_iff.mp hc),
          asciiLower_of_lower hc]
    · rw [if_neg hc]

theorem canonChar_asciiLower (up : Bool) (c : Char) :
    canonChar up (asciiLower c) = canonChar up c := by
  unfold canonChar
  by_cases hc : isUpperAlpha c = true
  · have h1 : isLowerAlpha (asciiLower c) = true := isLowerAlpha_asciiLower_of_upper hc
    have h2 : isLowerAlpha c = false := isLowerAlpha_of_upper_false hc
    have h3 : isUpperAlpha (asciiLower c) = false := isUpperAlpha_asciiLower_false c
    rcases up
    · simp only [Bool.false_eq_true, if_false, h3, hc, if_true]
    · simp only [if_true, h1, h2, Bool.false_eq_true, if_false]
      exact asciiUpper_asciiLower_of_upper (isUpperAlpha_iff.mp hc)
  · have hfix : asciiLower c = c := by
      apply asciiLower_of_not_upper
      intro hcon
      exact hc (isUpperAlpha_iff.mpr hcon)
    rw [hfix]
    simp [upperAlpha_eq_false hc]

theorem canonChar_canonChar (up : Bool) (c : Char) :
    canonChar up (canonChar up c) = canonChar up c := by
  unfold canonChar
  rcases up
  · simp only [Bool.false_eq_true, if_false]
    by_cases hc : isUpperAlpha c = true
    · rw [if_pos hc, if_neg (by rw [isUpperAlpha_asciiLower_false c]; exact Bool.false_ne_true)]
    · rw [if_neg hc, if_neg hc]
  · simp only [if_true]
    by_cases hc : isLowerAlpha c = true
    · have : isLowerAlpha (asciiUpper c) = false := by
        rcases hb : isLowerAlpha (asciiUpper c)
        · rfl
        · have h1 := isLowerAlpha_iff.mp hb
          rw [asciiUpper_toNat, if_pos (isLowerAlpha_iff.mp hc)] at h1
          have := isLowerAlpha_iff.mp hc
          omega
      rw [if_pos hc, if_neg (by rw [this]; exact Bool.false_ne_true)]
    · rw [if_neg hc, if_neg hc]

theorem goToLower_canonGo : ∀ (s : GoStr) (up : Bool),
    goToLower (canonGo up s) = goToLower s := by
  intro s
  induction s with
  | nil => intro up; rfl
  | cons c rest ih =>
    intro up
    show asciiLower (canonChar up c) :: goToLower (canonGo _ rest)
      = asciiLower c :: goToLower rest
    exact congrArg₂ List.cons (asciiLower_canonChar up c) (ih _)

theorem canonGo_goToLower : ∀ (s : GoStr) (up : Bool),
    canonGo up (goToLower s) = canonGo up s := by
  intro s
  induction s with
  | nil => intro up; rfl
  | cons c rest ih =>
    intro up
    show canonChar up (asciiLower c) :: canonGo (canonChar up (asciiLower c) = '-') (goToLower rest)
      = canonChar up c :: canonGo (canonChar up c = '-') rest
    rw [canonChar_asciiLower up c]
    exact congrArg₂ List.cons rfl (ih _)

theorem canonGo_idem : ∀ (s : GoStr) (up : Bool),
    canonGo up (canonGo up s) = canonGo up s := by
  intro s
  induction s with
  | nil => intro up; rfl
  | cons c rest ih =>
    intro up
    show canonChar up (canonChar up c) :: canonGo (canonChar up (canonChar up c) = '-') (canonGo _ rest)
      = canonChar up c :: canonGo (canonChar up c = '-') rest
    rw [canonChar_canonChar up c]
    exact congrArg₂ List.cons rfl (ih _)

theorem isTokenChar_asciiLower (c : Char) : isTokenChar (asciiLower c) = isTokenChar c := by
  by_cases h : 65 ≤ c.toNat ∧ c.toNat ≤ 90
  · have ht : (asciiLower c).toNat = c.toNat + 32 := by rw [asciiLower_toNat, if_pos h]
    unfold isTokenChar
    rw [ht, decide_eq_decide]
    omega
  · rw [asciiLower_of_not_upper h]

theorem all_isTokenChar_goToLower (s : GoStr) :
    (goToLower s).all isTokenChar = s.all isTokenChar := by
  induction s with
  | nil => rfl
  | cons c rest ih =>
    show (asciiLower c :: goToLower rest).all isTokenChar = _
    rw [List.all_cons, List.all_cons, isTokenChar_asciiLower, ih]

theorem isTokenChar_canonChar (up : Bool) (c : Char) :
    isTokenChar (canonChar up c) = isTokenChar c := by
  unfold canonChar
  rcases up
  · simp only [Bool.false_eq_true, if_false]
    by_cases hc : isUpperAlpha c = true
    · rw [if_pos hc, isTokenChar_asciiLower]
    · rw [if_neg hc]
  · simp only [if_true]
    by_cases hc : isLowerAlpha c = true
    · rw [if_pos hc]
      have hl := isLowerAlpha_iff.mp hc
      have ht : (asciiUpper c).toNat = c.toNat - 32 := by rw [asciiUpper_toNat, if_pos hl]
      unfold isTokenChar
      rw [ht, decide_eq_decide]
      omega
    · rw [if_neg hc]

theorem all_isTokenChar_canonGo : ∀ (s : GoStr) (up : Bool),
    (canonGo up s).all isTokenChar = s.all isTokenChar := by
  intro s
  induction s with
  | nil => intro up; rfl
  | cons c rest ih =>
    intro up
    show (canonChar up c :: canonGo _ rest).all isTokenChar = _
    rw [List.all_cons, List.all_cons, isTokenChar_canonChar, ih]

theorem canonKey_idem (k : GoStr) : canonKey (canonKey k) = canonKey k := by
  unfold canonKey
  by_cases hv : k.all isTokenChar = true
  · rw [if_pos hv]
    rw [if_pos (by rw [all_isTokenChar_canonGo]; exact hv), canonGo_idem]
  · rw [if_neg hv, if_neg hv]

theorem canon_hop_key {k : GoStr} (hk : canonKey k = k) (hh : isHopKey k = true) :
    k ∈ hopHeaders := by
  unfold isHopKey at hh
  rw [List.any_eq_true] at hh
  obtain ⟨ln, hln, heq⟩ := hh
  rw [List.mem_map] at hln
  obtain ⟨n, hn, rfl⟩ := hln
  have heq' : goToLower n = goToLower k := of_decide_eq_true heq
  have hvn : n.all isTokenChar = true := by
    simp only [hopHeaders, List.mem_cons, List.not_mem_nil, or_false] at hn
    rcases hn with rfl | rfl | rfl | rfl | rfl | rfl | rfl | rfl | rfl <;> decide
  have hvk : k.all isTokenChar = true := by
    rw [← all_isTokenChar_goToLower k, ← heq', all_isTokenChar_goToLower n]
    exact hvn
  have hcanon : canonGo true k = k := by
    have : canonKey k = canonGo true k := by
      unfold canonKey
      rw [if_pos hvk]
    rw [← this, hk]
  have hlistedGo : canonGo true (goToLower n) = n := by
    simp only [hopHeaders, List.mem_cons, List.not_mem_nil, or_false] at hn
    rcases hn with rfl | rfl | rfl | rfl | rfl | rfl | rfl | rfl | rfl <;> decide
  have hkn : k = n := by
    calc k = canonGo true k := hcanon.symm
    _ = canonGo true (goToLower k) := (canonGo_goToLower k true).symm
    _ = canonGo true (goToLower n) := by rw [heq']
    _ = n := hlistedGo
  rw [hkn]
  exact hn

theorem mem_strip_foldl :
    ∀ (ks : List GoStr) (acc : Headers) (kv : GoStr × List GoStr),
      kv ∈ List.foldl (fun acc k => mapDel (mapDel acc k) (goToLower k)) acc ks →
      kv ∈ acc ∧ ∀ k ∈ ks, ¬ kv.1 = k ∧ ¬ kv.1 = goToLower k := by
  intro ks
  induction ks with
  | nil =>
    intro acc kv h
    exact ⟨h, by simp⟩
  | cons k ks ih =>
    intro acc kv h
    rw [List.foldl_cons] at h
    obtain ⟨hmem, hrest⟩ := ih _ _ h
    obtain ⟨hmem2, hne2⟩ := mem_mapDel hmem
    obtain ⟨hmem3, hne3⟩ := mem_mapDel hmem2
    refine ⟨hmem3, ?_⟩
    intro k' hk'
    rcases List.mem_cons.mp hk' with rfl | hk''
    · exact ⟨hne3, hne2⟩
    · exact hrest k' hk''

theorem mem_stripHopHeaders {h : Headers} {kv : GoStr × List GoStr}
    (hm : kv ∈ stripHopHeaders h) :
    kv ∈ h ∧ ∀ n ∈ hopHeaders, ¬ kv.1 = n ∧ ¬ kv.1 = goToLower n := by
  unfold stripHopHeaders at hm
  exact mem_strip_foldl hopHeaders h kv hm

theorem strip_not_hop {h : Headers} {kv : GoStr × List GoStr}
    (hcanon : canonKey kv.1 = kv.1) (hm : kv ∈ stripHopHeaders h) :
    isHopKey kv.1 = false := by
  rcases hb : isHopKey kv.1
  · rfl
  · exact absurd rfl ((mem_stripHopHeaders hm).2 kv.1 (canon_hop_key hcanon hb)).1

theorem mem_appendXForwarded {hs : Headers} {remote hostH : GoStr} {tls : Bool}
    {kv : GoStr × List GoStr} (hm : kv ∈ appendXForwarded hs remote hostH tls) :
    kv ∈ hs ∨ kv.1 = gs "X-Forwarded-For" ∨ kv.1 = gs "X-Forwarded-Host" ∨
      kv.1 = gs "X-Forwarded-Proto" := by
  unfold appendXForwarded at hm
  have step3 : ∀ {m : Headers} {v : List GoStr},
      kv ∈ mapSet m (gs "X-Forwarded-Proto") v →
      kv ∈ m ∨ kv.1 = gs "X-Forwarded-Proto" := by
    intro m v h
    rcases mem_mapSet h with h' | h'
    · exact Or.inl h'
    · exact Or.inr (congrArg Prod.fst h')
  have step2 : ∀ {m : Headers} {v : List GoStr},
      kv ∈ mapSet m (gs "X-Forwarded-Host") v →
      kv ∈ m ∨ kv.1 = gs "X-Forwarded-Host" := by
    intro m v h
    rcases mem_mapSet h with h' | h'
    · exact Or.inl h'
    · exact Or.inr (congrArg Prod.fst h')
  have step1 : ∀ {m : Headers} {v : List GoStr},
      kv ∈ mapSet m (gs "X-Forwarded-For") v →
      kv ∈ m ∨ kv.1 = gs "X-Forwarded-For" := by
    intro m v h
    rcases mem_mapSet h with h' | h'
    · exact Or.inl h'
    · exact Or.inr (congrArg Prod.fst h')
  have hm2 : kv ∈ mapSet
      (if extractClientIP remote = [] then hs
       else mapSet hs (gs "X-Forwarded-For")
        (((mapGet hs (gs "X-Forwarded-For")).getD []) ++ [extractClientIP remote]))
      (gs "X-Forwarded-Host") [normalizeHost hostH] ∨ kv.1 = gs "X-Forwarded-Proto" := by
    rcases tls
    · simp only [Bool.false_eq_true, if_false] at hm
      exact step3 hm
    · simp only [if_true] at hm
      exact step3 hm
  rcases hm2 with hm2 | hxp
  · rcases step2 hm2 with hm1 | hxh
    · by_cases hip : extractClientIP remote = []
      · rw [if_pos hip] at hm1
        exact Or.inl hm1
      · rw [if_neg hip] at hm1
        rcases step1 hm1 with hm0 | hxf
        · exact Or.inl hm0
        · exact Or.inr (Or.inl hxf)
    · exact Or.inr (Or.inr (Or.inl hxh))
  · exact Or.inr (Or.inr (Or.inr hxp))

theorem mem_headerAdd_values :
    ∀ (vs : List GoStr) (acc : Headers) (k : GoStr) (kv : GoStr × List GoStr),
      kv ∈ List.foldl (fun a v => headerAdd a k v) acc vs →
      kv ∈ acc ∨ kv.1 = canonKey k := by
  intro vs
  induction vs with
  | nil =>
    intro acc k kv h
    exact Or.inl h
  | cons v vs ih =>
    intro acc k kv h
    rw [List.foldl_cons] at h
    rcases ih _ _ _ h with h' | h'
    · unfold headerAdd at h'
      rcases mem_mapSet h' with h'' | h''
      · exact Or.inl h''
      · exact Or.inr (congrArg Prod.fst h'')
    · exact Or.inr h'

theorem mem_addHeaderEntry_foldl :
    ∀ (l : Headers) (acc : Headers) (kv : GoStr × List GoStr),
      kv ∈ List.foldl addHeaderEntry acc l →
      kv ∈ acc ∨ ∃ j, kv.1 = canonKey j := by
  intro l
  induction l with
  | nil =>
    intro acc kv h
    exact Or.inl h
  | cons e l ih =>
    intro acc kv h
    rw [List.foldl_cons] at h
    rcases ih _ _ h with h' | h'
    · unfold addHeaderEntry at h'
      rcases mem_headerAdd_values e.2 acc e.1 kv h' with h'' | h''
      · exact Or.inl h''
      · exact Or.inr ⟨e.1, h''⟩
    · exact Or.inr h'

/-- C7: on all three forwarding legs no hop-by-hop header survives, comparing
names case-insensitively: (gateway leg) the `proxy_request` headers built from
a public request whose header keys are in canonical MIME form; (agent request
leg) the local-request headers built by adding any envelope headers through
`http.Header.Add` and stripping; (agent response leg) the `proxy_response`
headers copied from a local response whose keys are in canonical MIME form. -/
theorem hop_headers_stripped_all_legs :
    (∀ (h : Headers) (remote hostH : GoStr) (tls : Bool),
      (∀ kv ∈ h, canonKey kv.1 = kv.1) →
      ∀ kv ∈ appendXForwarded (stripHopHeaders (CloneHeaders h)) remote hostH tls,
        isHopKey kv.1 = false) ∧
    (∀ eh : Headers, ∀ kv ∈ buildLocalHeaders eh, isHopKey kv.1 = false) ∧
    (∀ lh : Headers, (∀ kv ∈ lh, canonKey kv.1 = kv.1) →
      ∀ kv ∈ stripHopHeaders (cloneRespHeaders lh), isHopKey kv.1 = false) := by
  refine ⟨?_, ?_, ?_⟩
  · intro h remote hostH tls hcanon kv hkv
    rcases mem_appendXForwarded hkv with hs | hx | hx | hx
    · exact strip_not_hop (hcanon kv (mem_stripHopHeaders hs).1) hs
    · rw [hx]
      decide
    · rw [hx]
      decide
    · rw [hx]
      decide
  · intro eh kv hkv
    unfold buildLocalHeaders at hkv
    have hmem := (mem_stripHopHeaders hkv).1
    rcases mem_addHeaderEntry_foldl eh [] kv hmem with h' | ⟨j, hj⟩
    · simp at h'
    · have hcanon : canonKey kv.1 = kv.1 := by
        rw [hj, canonKey_idem]
      exact strip_not_hop hcanon hkv
  · intro lh hcanon kv hkv
    exact strip_not_hop (hcanon kv (mem_stripHopHeaders hkv).1) hkv

/-- C7 witness: the three legs at concrete header maps containing hop-by-hop
headers in assorted cases. -/
theorem hop_headers_stripped_all_legs_witness :
    (∀ kv ∈ appendXForwarded
      (stripHopHeaders (CloneHeaders
        [(gs "Connection", [gs "keep-alive"]), (gs "Accept", [gs "text/html"])]))
      (gs "9.9.9.9:123") (gs "A.B") false, isHopKey kv.1 = false) ∧
    (∀ kv ∈ buildLocalHeaders
      [(gs "TRANSFER-ENCODING", [gs "chunked"]), (gs "x-req-id", [gs "1"])],
      isHopKey kv.1 = false) ∧
    (∀ kv ∈ stripHopHeaders (cloneRespHeaders
      [(gs "Upgrade", [gs "h2c"]), (gs "Content-Type", [gs "text/plain"])]),
      isHopKey kv.1 = false) := by
  refine ⟨?_, ?_, ?_⟩
  · exact hop_headers_stripped_all_legs.1
      [(gs "Connection", [gs "keep-alive"]), (gs "Accept", [gs "text/html"])]
      (gs "9.9.9.9:123") (gs "A.B") false (by decide)
  · exact hop_headers_stripped_all_legs.2.1
      [(gs "TRANSFER-ENCODING", [gs "chunked"]), (gs "x-req-id", [gs "1"])]
  · exact hop_headers_stripped_all_legs.2.2
      [(gs "Upgrade", [gs "h2c"]), (gs "Content-Type", [gs "text/plain"])] (by decide)

/- ### Claim C5 -/

theorem splitHostPort_hostport {hstr p : GoStr} (hne : ¬ hstr = [])
    (hch : strContains hstr ':' = false) (hcp : strContains p ':' = false)
    (hbh : strContains hstr '[' = false) (hbp : strContains p '[' = false)
    (hsh : strContains hstr ']' = false) (hsp : strContains p ']' = false) :
    splitHostPort (hstr ++ ':' :: p) = some (hstr, p) := by
  have hnp : ':' ∉ p := (strContains_eq_false_iff p ':').mp hcp
  have hidx : lastIdxOf? ':' (hstr ++ ':' :: p) = some hstr.length :=
    lastIdxOf?_append hstr hnp
  unfold splitHostPort
  simp only [hidx]
  have hhead : ¬ (hstr ++ ':' :: p).head? = some '[' := by
    rcases hstr with _ | ⟨c0, t0⟩
    · exact absurd rfl hne
    · simp only [List.cons_append, List.head?_cons]
      intro hcon
      exact (strContains_eq_false_iff _ '[').mp hbh
        ((Option.some.inj hcon) ▸ List.mem_cons_self c0 t0)
  rw [if_neg hhead]
  have htake : (hstr ++ ':' :: p).take hstr.length = hstr := List.take_left' rfl
  rw [htake]
  rw [if_neg (by rw [hch]; exact Bool.false_ne_true)]
  have hb : strContains (hstr ++ ':' :: p) '[' = false := by
    rw [strContains_eq_false_iff]
    intro hmem
    rcases List.mem_append.mp hmem with h' | h'
    · exact (strContains_eq_false_iff _ _).mp hbh h'
    · rcases List.mem_cons.mp h' with h'' | h''
      · exact absurd h'' (by decide)
      · exact (strContains_eq_false_iff _ _).mp hbp h''
  rw [if_neg (by rw [hb]; exact Bool.false_ne_true)]
  have hs : strContains (hstr ++ ':' :: p) ']' = false := by
    rw [strContains_eq_false_iff]
    intro hmem
    rcases List.mem_append.mp hmem with h' | h'
    · exact (strContains_eq_false_iff _ _).mp hsh h'
    · rcases List.mem_cons.mp h' with h'' | h''
      · exact absurd h'' (by decide)
      · exact (strContains_eq_false_iff _ _).mp hsp h''
  rw [if_neg (by rw [hs]; exact Bool.false_ne_true)]
  have hdrop : (hstr ++ ':' :: p).drop (hstr.length + 1) = p := by
    have hsplit : hstr ++ ':' :: p = (hstr ++ [':']) ++ p := by simp
    rw [hsplit]
    exact List.drop_left' (by simp)
  rw [hdrop]

theorem splitHostPort_bracketed {a p : GoStr}
    (hba : strContains a '[' = false) (hsa : strContains a ']' = false)
    (hcp : strContains p ':' = false) (hbp : strContains p '[' = false)
    (hsp : strContains p ']' = false) :
    splitHostPort ('[' :: a ++ ']' :: ':' :: p) = some (a, p) := by
  have hnp : ':' ∉ p := (strContains_eq_false_iff p ':').mp hcp
  have hidx : lastIdxOf? ':' ('[' :: a ++ ']' :: ':' :: p) = some (a.length + 2) := by
    have hsplit : '[' :: a ++ ']' :: ':' :: p = ('[' :: a ++ [']']) ++ ':' :: p := by simp
    rw [hsplit, lastIdxOf?_append _ hnp]
    simp
  unfold splitHostPort
  simp only [hidx]
  rw [if_pos (by simp : ('[' :: a ++ ']' :: ':' :: p).head? = some '[')]
  have hjdx : idxOf? ']' ('[' :: a ++ ']' :: ':' :: p) = some (a.length + 1) := by
    have hnotin : ']' ∉ '[' :: a := by
      intro hmem
      rcases List.mem_cons.mp hmem with h' | h'
      · exact absurd h' (by decide)
      · exact (strContains_eq_false_iff _ _).mp hsa h'
    have hsplit : '[' :: a ++ ']' :: ':' :: p = ('[' :: a) ++ ']' :: (':' :: p) := by simp
    rw [hsplit, idxOf?_append (':' :: p) hnotin]
    simp
  simp only [hjdx]
  have hlen : ¬ a.length + 1 + 1 = ('[' :: a ++ ']' :: ':' :: p).length := by
    simp [List.length_append]
  rw [if_neg hlen]
  simp only [if_true]
  have hd1 : ('[' :: a ++ ']' :: ':' :: p).drop 1 = a ++ ']' :: ':' :: p := by simp
  have hc1 : strContains (('[' :: a ++ ']' :: ':' :: p).drop 1) '[' = false := by
    rw [hd1, strContains_eq_false_iff]
    intro hmem
    rcases List.mem_append.mp hmem with h' | h'
    · exact (strContains_eq_false_iff _ _).mp hba h'
    · rcases List.mem_cons.mp h' with h'' | h''
      · exact absurd h'' (by decide)
      · rcases List.mem_cons.mp h'' with h3 | h3
        · exact absurd h3 (by decide)
        · exact (strContains_eq_false_iff _ _).mp hbp h3
  rw [if_neg (by rw [hc1]; exact Bool.false_ne_true)]
  have hd2 : ('[' :: a ++ ']' :: ':' :: p).drop (a.length + 1 + 1) = ':' :: p := by
    have hsplit : '[' :: a ++ ']' :: ':' :: p = ('[' :: a ++ [']']) ++ ':' :: p := by simp
    rw [hsplit]
    exact List.drop_left' (by simp)
  have hc2 : strContains (('[' :: a ++ ']' :: ':' :: p).drop (a.length + 1 + 1)) ']' = false := by
    rw [hd2, strContains_eq_false_iff]
    intro hmem
    rcases List.mem_cons.mp hmem with h' | h'
    · exact absurd h' (by decide)
    · exact (strContains_eq_false_iff _ _).mp hsp h'
  rw [if_neg (by rw [hc2]; exact Bool.false_ne_true)]
  have htk : (('[' :: a ++ ']' :: ':' :: p).drop 1).take (a.length + 1 - 1) = a := by
    rw [hd1]
    have : a.length + 1 - 1 = a.length := by omega
    rw [this]
    exact List.take_left' rfl
  have hdr : ('[' :: a ++ ']' :: ':' :: p).drop (a.length + 2 + 1) = p := by
    have hsplit : '[' :: a ++ ']' :: ':' :: p = ('[' :: a ++ [']'] ++ [':']) ++ p := by simp
    rw [hsplit]
    exact List.drop_left' (by simp)
  rw [htk, hdr]

theorem normalizeHost_strips_port {hstr p : GoStr} (hne : ¬ hstr = [])
    (hlowh : goToLower hstr = hstr) (hlowp : goToLower p = p)
    (hnsh : ∀ c ∈ hstr, isGoSpace c = false) (hnsp : ∀ c ∈ p, isGoSpace c = false)
    (hch : strContains hstr ':' = false) (hcp : strContains p ':' = false)
    (hbh : strContains hstr '[' = false) (hbp : strContains p '[' = false)
    (hsh : strContains hstr ']' = false) (hsp : strContains p ']' = false) :
    normalizeHost (hstr ++ ':' :: p) = hstr := by
  have hlow : goToLower (hstr ++ ':' :: p) = hstr ++ ':' :: p := by
    show List.map asciiLower (hstr ++ ':' :: p) = _
    rw [List.map_append, List.map_cons]
    rw [show asciiLower ':' = ':' from by decide]
    show goToLower hstr ++ ':' :: goToLower p = _
    rw [hlowh, hlowp]
  have htrim : trimSpace (hstr ++ ':' :: p) = hstr ++ ':' :: p := by
    apply trimSpace_eq_self
    intro c hc
    rcases List.mem_append.mp hc with h' | h'
    · exact hnsh c h'
    · rcases List.mem_cons.mp h' with rfl | h''
      · decide
      · exact hnsp c h''
  simp only [normalizeHost]
  rw [hlow, htrim]
  rw [if_neg (by simp : ¬ hstr ++ ':' :: p = [])]
  have hcon : strContains (hstr ++ ':' :: p) ':' = true := by
    rw [strContains_iff]
    exact List.mem_append.mpr (Or.inr (List.mem_cons_self _ _))
  rw [if_pos hcon]
  simp only [splitHostPort_hostport hne hch hcp hbh hbp hsh hsp]
  rw [hlowh, trimSpace_eq_self hnsh]

theorem normalizeHost_strips_ipv6_port {a p : GoStr}
    (hlowa : goToLower a = a) (hlowp : goToLower p = p)
    (hnsa : ∀ c ∈ a, isGoSpace c = false) (hnsp : ∀ c ∈ p, isGoSpace c = false)
    (hba : strContains a '[' = false) (hsa : strContains a ']' = false)
    (hcp : strContains p ':' = false) (hbp : strContains p '[' = false)
    (hsp : strContains p ']' = false) :
    normalizeHost ('[' :: a ++ ']' :: ':' :: p) = a := by
  have hlow : goToLower ('[' :: a ++ ']' :: ':' :: p) = '[' :: a ++ ']' :: ':' :: p := by
    show List.map asciiLower ('[' :: (a ++ ']' :: ':' :: p)) = _
    rw [List.map_cons, List.map_append, List.map_cons, List.map_cons]
    rw [show asciiLower '[' = '[' from by decide, show asciiLower ']' = ']' from by decide,
        show asciiLower ':' = ':' from by decide]
    show '[' :: (goToLower a ++ ']' :: ':' :: goToLower p) = _
    rw [hlowa, hlowp]
    simp
  have htrim : trimSpace ('[' :: a ++ ']' :: ':' :: p) = '[' :: a ++ ']' :: ':' :: p := by
    apply trimSpace_eq_self
    intro c hc
    rcases List.mem_cons.mp hc with rfl | hc'
    · decide
    · rcases List.mem_append.mp hc' with h' | h'
      · exact hnsa c h'
      · rcases List.mem_cons.mp h' with rfl | h''
        · decide
        · rcases List.mem_cons.mp h'' with rfl | h3
          · decide
          · exact hnsp c h3
  simp only [normalizeHost]
  rw [hlow, htrim]
  rw [if_neg (by simp : ¬ '[' :: a ++ ']' :: ':' :: p = [])]
  have hcon : strContains ('[' :: a ++ ']' :: ':' :: p) ':' = true := by
    rw [strContains_iff]
    exact List.mem_cons_of_mem _
      (List.mem_append.mpr (Or.inr (List.mem_cons_of_mem _ (List.mem_cons_self _ _))))
  rw [if_pos hcon]
  simp only [splitHostPort_bracketed hba hsa hcp hbp hsp]
  rw [hlowa, trimSpace_eq_self hnsa]

theorem normalizeHost_lower_chars {x : GoStr} {c : Char} (hc : c ∈ normalizeHost x) :
    asciiLower c = c := by
  obtain ⟨y, hy⟩ := normalizeHost_shape x
  rw [hy] at hc
  exact goToLower_fix_of_mem_lower (mem_trimSpace hc)

theorem handlePublicHTTP_host_congr (st : GatewayState) (r₁ r₂ : PublicRequest)
    (readErr writeOk : Bool) (rid : GoStr) (resp? : Option Envelope)
    (hm : r₁.method = r₂.method) (hp : r₁.path = r₂.path) (hq : r₁.query = r₂.query)
    (hh : r₁.headers = r₂.headers) (hb : r₁.body = r₂.body)
    (hra : r₁.remoteAddr = r₂.remoteAddr) (ht : r₁.tls = r₂.tls)
    (hnorm : normalizeHost r₁.host = normalizeHost r₂.host) :
    HandlePublicHTTP st r₁ readErr writeOk rid resp? =
    HandlePublicHTTP st r₂ readErr writeOk rid resp? := by
  simp only [HandlePublicHTTP, appendXForwarded, hm, hp, hq, hh, hb, hra, ht, hnorm]

/-- C5 counterexample: the lookup-side normalization does NOT strip a trailing
dot: `normalizeHost "example.com."` keeps the dot, differing from the
spec-worded normalization (`normalizeHostSpec`, which strips it). -/
theorem normalizeHost_keeps_trailing_dot :
    normalizeHost (gs "example.com.") = gs "example.com." ∧
    normalizeHostSpec (gs "example.com.") = gs "example.com" ∧
    ¬ normalizeHost (gs "example.com.") = normalizeHostSpec (gs "example.com.") := by
  refine ⟨by decide, by decide, by decide⟩

/-- C5 amended: the lookup-side normalization lower-cases its result, strips a
port given either as `host:port` or in bracketed IPv6 form, and the public
handler depends on the Host header only through this normalization (the
lookup key is the normalized host) — but no trailing dot is stripped. -/
theorem lookup_normalization_amended :
    (∀ (x : GoStr) (c : Char), c ∈ normalizeHost x → asciiLower c = c) ∧
    (∀ hstr p : GoStr, ¬ hstr = [] →
      goToLower hstr = hstr → goToLower p = p →
      (∀ c ∈ hstr, isGoSpace c = false) → (∀ c ∈ p, isGoSpace c = false) →
      strContains hstr ':' = false → strContains p ':' = false →
      strContains hstr '[' = false → strContains p '[' = false →
      strContains hstr ']' = false → strContains p ']' = false →
      normalizeHost (hstr ++ ':' :: p) = hstr) ∧
    (∀ a p : GoStr,
      goToLower a = a → goToLower p = p →
      (∀ c ∈ a, isGoSpace c = false) → (∀ c ∈ p, isGoSpace c = false) →
      strContains a '[' = false → strContains a ']' = false →
      strContains p ':' = false → strContains p '[' = false →
      strContains p ']' = false →
      normalizeHost ('[' :: a ++ ']' :: ':' :: p) = a) ∧
    (∀ (st : GatewayState) (r₁ r₂ : PublicRequest) (readErr writeOk : Bool)
      (rid : GoStr) (resp? : Option Envelope),
      r₁.method = r₂.method → r₁.path = r₂.path → r₁.query = r₂.query →
      r₁.headers = r₂.headers → r₁.body = r₂.body →
      r₁.remoteAddr = r₂.remoteAddr → r₁.tls = r₂.tls →
      normalizeHost r₁.host = normalizeHost r₂.host →
      HandlePublicHTTP st r₁ readErr writeOk rid resp? =
        HandlePublicHTTP st r₂ readErr writeOk rid resp?) := by
  refine ⟨?_, ?_, ?_, ?_⟩
  · intro x c hc
    exact normalizeHost_lower_chars hc
  · intro hstr p h1 h2 h3 h4 h5 h6 h7 h8 h9 h10 h11
    exact normalizeHost_strips_port h1 h2 h3 h4 h5 h6 h7 h8 h9 h10 h11
  · intro a p h1 h2 h3 h4 h5 h6 h7 h8 h9
    exact normalizeHost_strips_ipv6_port h1 h2 h3 h4 h5 h6 h7 h8 h9
  · intro st r₁ r₂ readErr writeOk rid resp? h1 h2 h3 h4 h5 h6 h7 h8
    exact handlePublicHTTP_host_congr st r₁ r₂ readErr writeOk rid resp?
      h1 h2 h3 h4 h5 h6 h7 h8

/-- C5 witness: port stripping in both forms, lower-casing, and host-header
insensitivity of the handler beyond normalization, at concrete inputs. -/
theorem lookup_normalization_amended_witness :
    normalizeHost (gs "foo.com:8080") = gs "foo.com" ∧
    normalizeHost (gs "[2001:db8::1]:443") = gs "2001:db8::1" ∧
    asciiLower 'a' = 'a' ∧
    HandlePublicHTTP ⟨[], []⟩ ⟨gs "A.B.", gs "GET", gs "/", [], [], [], gs "c", false⟩
        false true (gs "1") none
      = HandlePublicHTTP ⟨[], []⟩ ⟨gs "a.b.:80", gs "GET", gs "/", [], [], [], gs "c", false⟩
        false true (gs "1") none := by
  refine ⟨?_, ?_, ?_, ?_⟩
  · have h := lookup_normalization_amended.2.1 (gs "foo.com") (gs "8080")
      (by decide) (by decide) (by decide) (by decide) (by decide) (by decide)
      (by decide) (by decide) (by decide) (by decide) (by decide)
    rw [show gs "foo.com:8080" = gs "foo.com" ++ ':' :: gs "8080" from by decide]
    exact h
  · have h := lookup_normalization_amended.2.2.1 (gs "2001:db8::1") (gs "443")
      (by decide) (by decide) (by decide) (by decide) (by decide) (by decide)
      (by decide) (by decide) (by decide)
    rw [show gs "[2001:db8::1]:443" = '[' :: gs "2001:db8::1" ++ ']' :: ':' :: gs "443"
      from by decide]
    exact h
  · exact lookup_normalization_amended.1 (gs "a.b") 'a' (by decide)
  · exact lookup_normalization_amended.2.2.2 ⟨[], []⟩
      ⟨gs "A.B.", gs "GET", gs "/", [], [], [], gs "c", false⟩
      ⟨gs "a.b.:80", gs "GET", gs "/", [], [], [], gs "c", false⟩
      false true (gs "1") none rfl rfl rfl rfl rfl rfl rfl (by decide)
